import Mathlib

/-!
# Media ingestion pipeline of the miniflux fork

A shallow embedding of

* `internal/model/media.go` (the `Medium` and `EntryMedium` records),
* `internal/storage/media.go` (the SQL operations on the `media` and
  `entry_media` tables),
* `internal/reader/contentmedia/contentmedia.go` (`imgRegex`, `DownloadFile`,
  `FetchEntryMedia`, `TranscribeMedia`),
* `internal/cli/download_media.go` (`downloadMedia`, run by one worker),

followed by theorems about them.

Conventions of the embedding.

* The database is an explicit value of type `Store`; every SQL statement is a
  function from a store to a store.  A table is the list of its rows in insertion
  order.
* Every statement of the source is followed by `if err != nil`.  A database error
  is an input of the model: each statement takes a value that says whether the
  database carries it out.  A statement that fails changes no table; the insert
  into `media`, which draws its id from a sequence, may fail before or after the id
  was drawn (`InsertFault`).
* A Go `*model.Medium` that the callee mutates is returned next to the error.
* `int64` is `Int`, `[]byte` is `List UInt8`, `string` is `String`.
-/

namespace Miniflux

/-! ## Data model -/

/-- Contents of a Go byte slice. -/
abbrev Bytes := List UInt8

/-- A Go `error` value as far as the code looks at it: `nil` or not. -/
inductive Err where
  | nil
  | fail
  deriving DecidableEq, Repr

/-- The record `model.Medium` (`internal/model/media.go`).  The `Entry` pointer, which
only `MediumBySrc` fills, is left out. -/
structure Medium where
  ID : Int
  Hash : String
  MimeType : String
  Content : Bytes
  Text : String
  deriving DecidableEq, Repr

/-- The record `model.EntryMedium`, a row of the junction table `entry_media`. -/
structure EntryMedium where
  EntryID : Int
  MediumID : Int
  Source : String
  deriving DecidableEq, Repr

/-- Modelled from the spec: `model.Entry` and the `entries` table are declared
outside the source slice.  The record has the fields the pipeline reads
(`ID`, `UserID`, `FeedID`, `Content`) and `Archived`, which says whether the
column `archived_at` is set ("a terminal archived/processed timestamp"). -/
structure Entry where
  ID : Int
  UserID : Int
  FeedID : Int
  Content : String
  Archived : Bool
  deriving DecidableEq, Repr

/-- The database: table `media` together with the sequence that numbers its rows
(the next id that an insert into `media` returns), table `entry_media`, and table
`entries` (oldest row first). -/
structure Store where
  media : List Medium
  media_id_seq : Int
  entry_media : List EntryMedium
  entries : List Entry
  deriving DecidableEq, Repr

/-- The collaborators that the source slice calls but does not define:
`crypto.HashFromBytes`, `normalizeMimeType`, and the outcome of the HTTP request
that `DownloadFile` makes for a URL (body and declared content type, or
failure). -/
structure Deps where
  HashFromBytes : Bytes → String
  normalizeMimeType : String → String
  fetch : String → Option (Bytes × String)

/-- The OCR engine (`gosseract.Client`) as `TranscribeMedia` uses it:
`SetImageFromBytes` accepts or rejects an image, `Text` returns the text of the
image that was set, with an error. -/
structure Client where
  SetImageFromBytes : Bytes → Err
  Text : Bytes → String × Err

/-- The answer of the database to `INSERT INTO media .. RETURNING id`, whose id
comes from a sequence: the row is inserted (`ok`); the statement fails before an
id was drawn, as when the connection is lost (`lost`); or the row is refused on a
constraint after its id was drawn, as on a uniqueness violation (`refused`).  A
sequence value that was drawn is not given back. -/
inductive InsertFault where
  | ok
  | lost
  | refused
  deriving DecidableEq, Repr

/-- Database errors met while one reference is resolved: in the hash lookup, in
the insert into `media`, in the insert into `entry_media`, and in the update of
the text. -/
structure RefFaults where
  lookup : Bool
  create : InsertFault
  link : Bool
  text : Bool
  deriving DecidableEq, Repr

/-- Database errors met by one call of `FetchEntryMedia`: in the delete, per
reference (by position in the list of matches), and in the archive update. -/
structure EntryFaults where
  delete : Bool
  refs : Nat → RefFaults
  archive : Bool

/-- Every statement succeeds. -/
def RefFaults.none : RefFaults := ⟨false, InsertFault.ok, false, false⟩

/-- Every statement succeeds. -/
def EntryFaults.none : EntryFaults := ⟨false, fun _ => RefFaults.none, false⟩

/-! ## `internal/storage/media.go` -/

/-- Go `Storage.MediumByHash`: `SELECT id FROM media WHERE hash=$1` scanned into
`medium.ID`.  No row is not an error and leaves `medium.ID` as it was. -/
def MediumByHash (fail : Bool) (s : Store) (medium : Medium) : Err × Medium :=
  if fail then (Err.fail, medium)
  else
    match s.media.find? (fun r => decide (r.Hash = medium.Hash)) with
    | some r => (Err.nil, { medium with ID := r.ID })
    | none => (Err.nil, medium)

/-- Go `Storage.CreateMedium`: `INSERT INTO media (hash, mime_type, content, text, ..)
.. RETURNING id` scanned into `media.ID`.  The new row takes the next value of
the sequence.  A row that is refused on a constraint has used that value up, and
`media.ID` is not written. -/
def CreateMedium (D : Deps) (fault : InsertFault) (s : Store) (media : Medium) :
    Err × Store × Medium :=
  match fault with
  | InsertFault.lost => (Err.fail, s, media)
  | InsertFault.refused => (Err.fail, { s with media_id_seq := s.media_id_seq + 1 }, media)
  | InsertFault.ok =>
    let row : Medium :=
      { ID := s.media_id_seq
        Hash := media.Hash
        MimeType := D.normalizeMimeType media.MimeType
        Content := media.Content
        Text := media.Text }
    (Err.nil,
      { s with media := s.media ++ [row], media_id_seq := s.media_id_seq + 1 },
      { media with ID := s.media_id_seq })

/-- Go `Storage.CreateEntryMedium` from the statement after the hash lookup
(lines 142-154): create the medium when `media.ID == 0`, then insert the link. -/
def CreateEntryMediumAfterLookup (D : Deps) (f : RefFaults) (s : Store) (entryID : Int)
    (entrySourceUrl : String) (media : Medium) : Err × Store × Medium :=
  let created : Err × Store × Medium :=
    if media.ID = 0 then CreateMedium D f.create s media else (Err.nil, s, media)
  match created with
  | (Err.fail, s1, m1) => (Err.fail, s1, m1)
  | (Err.nil, s1, m1) =>
    if f.link then (Err.fail, s1, m1)
    else
      (Err.nil,
        { s1 with entry_media := s1.entry_media ++ [⟨entryID, m1.ID, entrySourceUrl⟩] },
        m1)

/-- Go `Storage.CreateEntryMedium`: the hash lookup, then the rest. -/
def CreateEntryMedium (D : Deps) (f : RefFaults) (s : Store) (entryID : Int)
    (entrySourceUrl : String) (media : Medium) : Err × Store × Medium :=
  match MediumByHash f.lookup s media with
  | (Err.fail, m) => (Err.fail, s, m)
  | (Err.nil, m) => CreateEntryMediumAfterLookup D f s entryID entrySourceUrl m

/-- Go `Storage.DeleteEntryMedia`: `DELETE FROM entry_media WHERE entry_id = $1`. -/
def DeleteEntryMedia (fail : Bool) (s : Store) (entryID : Int) : Err × Store :=
  if fail then (Err.fail, s)
  else
    (Err.nil,
      { s with entry_media := s.entry_media.filter (fun l => decide (l.EntryID ≠ entryID)) })

/-- Go `Storage.MediaWithNoTexts`: `SELECT .. FROM media as m WHERE m.text = ''
LIMIT $1`.  The database rejects a negative limit. -/
def MediaWithNoTexts (fail : Bool) (s : Store) (limit : Int) : Err × List Medium :=
  if fail ∨ limit < 0 then (Err.fail, [])
  else (Err.nil, (s.media.filter (fun r => decide (r.Text = ""))).take limit.toNat)

/-- Go `Storage.UpdateMediaText`: `UPDATE media SET text=$1, .. WHERE id=$2`. -/
def UpdateMediaText (fail : Bool) (s : Store) (media : Medium) : Err × Store :=
  if fail then (Err.fail, s)
  else
    (Err.nil,
      { s with
        media := s.media.map
          (fun r => if r.ID = media.ID then { r with Text := media.Text } else r) })

/-- Modelled from the spec: `Storage.UpdateArchiveDate` is defined outside the
source slice.  It marks the entry `entryID` of user `userID` with the
archived timestamp, so that the selection of unarchived entries leaves it out. -/
def UpdateArchiveDate (fail : Bool) (s : Store) (userID entryID : Int) : Err × Store :=
  if fail then (Err.fail, s)
  else
    (Err.nil,
      { s with
        entries := s.entries.map
          (fun e => if e.ID = entryID ∧ e.UserID = userID then { e with Archived := true }
            else e) })

/-- Modelled from the spec: the query that `downloadMedia` builds
(`e.archived_at is null`, sorted by `created_at` ascending, limited to `count`)
is run by code outside the source slice: "source units not yet archived, oldest
first, limited to batch size". -/
def GetEntries (fail : Bool) (s : Store) (count : Nat) : Err × List Entry :=
  if fail then (Err.fail, [])
  else (Err.nil, (s.entries.filter (fun e => !e.Archived)).take count)

/-! ## `imgRegex`

`regexp.MustCompile("<img.*src=\"(?P<imgsrc>.*?)\"")`.  Go's `regexp` returns
the leftmost match and, among the matches that start there, the one a
backtracking search finds first; `.` is any character but the newline.  The
functions below are that search for this pattern, one per piece of it.  Each
returns the text of the capture group and the number of characters matched. -/

/-- The end of the pattern, `.*?)"`: the lazy star tries the closing quote before it
takes another character. -/
def lazyCapture : List Char → Option (List Char × Nat)
  | [] => none
  | c :: cs =>
    if c = '"' then some ([], 1)
    else if c = '\n' then none
    else (lazyCapture cs).map (fun p => (c :: p.1, p.2 + 1))

/-- The pattern from `src="` on. -/
def srcAttr : List Char → Option (List Char × Nat)
  | 's' :: 'r' :: 'c' :: '=' :: '"' :: rest =>
    (lazyCapture rest).map (fun p => (p.1, p.2 + 5))
  | _ => none

/-- The pattern from `.*` on: the greedy star takes another character when it
can and the rest of the pattern then matches, and stops here otherwise. -/
def greedyThenSrc : List Char → Option (List Char × Nat)
  | [] => srcAttr []
  | c :: cs =>
    if c = '\n' then srcAttr (c :: cs)
    else
      match greedyThenSrc cs with
      | some p => some (p.1, p.2 + 1)
      | none => srcAttr (c :: cs)

/-- The whole pattern, anchored at the head of the input. -/
def matchAt : List Char → Option (List Char × Nat)
  | '<' :: 'i' :: 'm' :: 'g' :: rest => (greedyThenSrc rest).map (fun p => (p.1, p.2 + 4))
  | _ => none

/-- Go `FindAllStringSubmatch(.., -1)`, keeping capture group 1 of each match: the
successive non-overlapping leftmost matches.  `skip` counts the characters of the
previous match that are still ahead. -/
def findAll : Nat → List Char → List (List Char)
  | _, [] => []
  | skip + 1, _ :: cs => findAll skip cs
  | 0, c :: cs =>
    match matchAt (c :: cs) with
    | some p => p.1 :: findAll (p.2 - 1) cs
    | none => findAll 0 cs

/-- The URLs that `FetchEntryMedia` loops over: `match[1]` for each `match` of
`imgRegex.FindAllStringSubmatch(entry.Content, -1)`. -/
def imgRegexSubmatches (content : String) : List String :=
  (findAll 0 content.data).map String.mk

/-! ## `internal/reader/contentmedia/contentmedia.go` -/

/-- Go `DownloadFile`: the medium built from the response, or an error (`none`) when
the request or the reading of the body fails. -/
def DownloadFile (D : Deps) (mediaURL : String) : Option Medium :=
  (D.fetch mediaURL).map
    (fun r =>
      { ID := 0
        Hash := D.HashFromBytes r.1
        MimeType := r.2
        Content := r.1
        Text := "" })

/-- Go `TranscribeMedia`: set the image, read the text, put `-` for the empty text,
write the text to the store. -/
def TranscribeMedia (client : Client) (updateFails : Bool) (s : Store) (media : Medium) :
    Err × Store × Medium :=
  match client.SetImageFromBytes media.Content with
  | Err.fail => (Err.fail, s, media)
  | Err.nil =>
    let media1 : Medium := { media with Text := (client.Text media.Content).1 }
    match (client.Text media.Content).2 with
    | Err.fail => (Err.fail, s, media1)
    | Err.nil =>
      let media2 : Medium := if media1.Text = "" then { media1 with Text := "-" } else media1
      ((UpdateMediaText updateFails s media2).1, (UpdateMediaText updateFails s media2).2, media2)

/-- The body of the loop of `FetchEntryMedia` (lines 62-97) for one match.  Every
failure is logged and the loop goes on, so only the store comes back. -/
def fetchReference (D : Deps) (client : Option Client) (entry : Entry) (f : RefFaults)
    (s : Store) (url : String) : Store :=
  match DownloadFile D url with
  | none => s
  | some medium =>
    match CreateEntryMedium D f s entry.ID url medium with
    | (Err.fail, s1, _) => s1
    | (Err.nil, s1, medium1) =>
      match client with
      | some c => (TranscribeMedia c f.text s1 medium1).2.1
      | none => s1

/-- The loop `for _, match := range matches` of `FetchEntryMedia`. -/
def fetchLoop (D : Deps) (client : Option Client) (entry : Entry) :
    List String → (Nat → RefFaults) → Store → Store
  | [], _, s => s
  | url :: rest, fl, s =>
    fetchLoop D client entry rest (fun i => fl (i + 1))
      (fetchReference D client entry (fl 0) s url)

/-- Go `FetchEntryMedia`: delete the links of the entry, run the loop over the
matches of `imgRegex`, set the archive date. -/
def FetchEntryMedia (D : Deps) (client : Option Client) (fl : EntryFaults) (s : Store)
    (entry : Entry) : Err × Store :=
  match DeleteEntryMedia fl.delete s entry.ID with
  | (Err.fail, s0) => (Err.fail, s0)
  | (Err.nil, s0) =>
    UpdateArchiveDate fl.archive
      (fetchLoop D client entry (imgRegexSubmatches entry.Content) fl.refs s0)
      entry.UserID entry.ID

/-! ## `internal/cli/download_media.go` -/

/-- The loop `for entry := range jobQueue` of the worker of `downloadMedia`, when
it is the only worker: the jobs in the order they were sent.  An error of
`FetchEntryMedia` is logged and the loop goes on. -/
def downloadWorker (D : Deps) : List Entry → (Nat → EntryFaults) → Store → Store
  | [], _, s => s
  | entry :: rest, fl, s =>
    downloadWorker D rest (fun i => fl (i + 1)) (FetchEntryMedia D none (fl 0) s entry).2

/-- Go `downloadMedia` with a worker pool of size 1 and a batch size `count` that is
not negative.  The result is the store after the run and the job count `nbJobs` of
the final log line, which is absent when the selection failed. -/
def downloadMedia (D : Deps) (selectFails : Bool) (fl : Nat → EntryFaults) (s : Store)
    (count : Nat) : Store × Option Nat :=
  match GetEntries selectFails s count with
  | (Err.fail, _) => (s, none)
  | (Err.nil, entries) => (downloadWorker D entries fl s, some entries.length)

/-! ## Invariant of the store -/

/-- Modelled from the spec: the schema of the `media` table is outside the source
slice.  This is the state the schema keeps the table in: the identity of a row is
"assigned by store on first insert", from a sequence that starts at 1, and the
"content hash is unique across the store". -/
def Store.WF (s : Store) : Prop :=
  (∀ r ∈ s.media, 0 < r.ID) ∧ 0 < s.media_id_seq ∧ (s.media.map (fun r => r.Hash)).Nodup

/-- The id that the hash lookup of `MediumByHash` finds for a hash, `0` when no
row has it. -/
def idByHash (s : Store) (hash : String) : Int :=
  (MediumByHash false s ⟨0, hash, "", [], ""⟩).2.ID

/-- The number of rows of `media` with a given hash. -/
def hashCount (s : Store) (hash : String) : Nat :=
  (s.media.map (fun r => r.Hash)).count hash

/-- The fault plan of a list of references from which the reference at position
`i` was taken out: the positions after `i` move down by one. -/
def skipFault (fl : Nat → RefFaults) (i : Nat) : Nat → RefFaults :=
  fun j => if j < i then fl j else fl (j + 1)

/-- The columns of a `media` row that no statement of the pipeline writes after
the insert: everything but the text. -/
def Medium.key (r : Medium) : Int × String × String × Bytes :=
  (r.ID, r.Hash, r.MimeType, r.Content)

/-- The store when the loop of `FetchEntryMedia` has processed the references `pre`
and is about to process the next one. -/
def storeAfterPrefix (D : Deps) (client : Option Client) (fl : EntryFaults) (s : Store)
    (entry : Entry) (pre : List String) : Store :=
  fetchLoop D client entry pre fl.refs (DeleteEntryMedia fl.delete s entry.ID).2

/-- The row that `CreateMedium` inserts into `media` for the medium `media` when the
store is `s`. -/
def newMediaRow (D : Deps) (s : Store) (media : Medium) : Medium :=
  { ID := s.media_id_seq
    Hash := media.Hash
    MimeType := D.normalizeMimeType media.MimeType
    Content := media.Content
    Text := media.Text }

/-! ## Sample values -/

/-- Sample collaborators: the digest spells the bytes out as characters, the MIME
normalisation changes nothing, and four URLs answer, three of them with the same
bytes, one of these under another content type. -/
def sampleDeps : Deps where
  HashFromBytes := fun b => String.mk (b.map (fun x => Char.ofNat x.toNat))
  normalizeMimeType := fun m => m
  fetch := fun u =>
    if u = "http://a/1.png" then some ([97, 98], "image/png")
    else if u = "http://b/2.jpg" then some ([99], "image/jpeg")
    else if u = "http://m/1.png" then some ([97, 98], "image/png")
    else if u = "http://n/1.jpg" then some ([97, 98], "image/jpeg")
    else none

/-- A database with no rows; the sequence of `media` ids starts at 1. -/
def emptyStore : Store := ⟨[], 1, [], []⟩

/-- An entry with two image tags on two lines. -/
def entryAB : Entry :=
  ⟨1, 10, 100, "<img src=\"http://a/1.png\">\n<img src=\"http://b/2.jpg\">", false⟩

/-- The entry `entryAB` without its first image tag. -/
def entryB : Entry := ⟨1, 10, 100, "<img src=\"http://b/2.jpg\">", false⟩

/-- The insert into `entry_media` fails for the first reference. -/
def linkFaultFirst : EntryFaults :=
  ⟨false, fun i => if i = 0 then ⟨false, InsertFault.ok, true, false⟩ else RefFaults.none,
    false⟩

/-- The entry `entryAB` with, between its two image tags, a third one whose URL
does not answer. -/
def entryAXB : Entry :=
  ⟨1, 10, 100,
    "<img src=\"http://a/1.png\">\n<img src=\"http://x/0.gif\">\n<img src=\"http://b/2.jpg\">",
    false⟩

/-- What `DownloadFile` returns for `http://a/1.png` and for `http://m/1.png`. -/
def mediumA : Medium := ⟨0, "ab", "image/png", [97, 98], ""⟩

/-- The store after another worker has stored the bytes of `mediumA` for entry 2. -/
def storeAfterOther : Store :=
  ⟨[⟨1, "ab", "image/png", [97, 98], ""⟩], 2, [⟨2, 1, "http://m/1.png"⟩], []⟩

/-- A store in which entry 1 has a link from an earlier run and entry 2 links the
same medium. -/
def storeWithOldLink : Store :=
  ⟨[⟨1, "ab", "image/png", [97, 98], ""⟩], 2,
    [⟨1, 1, "http://old/0.png"⟩, ⟨2, 1, "http://m/1.png"⟩], [entryAXB]⟩

/-- An entry whose content is the tag of `http://a/1.png`. -/
def entryA1 : Entry := ⟨1, 10, 100, "<img src=\"http://a/1.png\">", false⟩

/-- An entry whose content is the tag of `http://b/2.jpg`. -/
def entryB2 : Entry := ⟨2, 10, 100, "<img src=\"http://b/2.jpg\">", false⟩

/-- An engine that accepts every image and finds no text. -/
def blankClient : Client := ⟨fun _ => Err.nil, fun _ => ("", Err.nil)⟩

/-- An engine that rejects every image. -/
def brokenClient : Client := ⟨fun _ => Err.fail, fun _ => ("", Err.nil)⟩

/-- Two image tags on one line. -/
def twoTagsOneLine : String := "<img src=\"http://a/1.png\"><img src=\"http://b/2.jpg\">"

/-- Entry 3 with three image tags; the URL of the second does not answer. -/
def entry3AXB : Entry :=
  ⟨3, 10, 100,
    "<img src=\"http://a/1.png\">\n<img src=\"http://x/0.gif\">\n<img src=\"http://b/2.jpg\">",
    false⟩

/-- Entry 3 without the tag whose URL does not answer. -/
def entry3AB : Entry :=
  ⟨3, 10, 100, "<img src=\"http://a/1.png\">\n<img src=\"http://b/2.jpg\">", false⟩

/-- Entry 4, with the tag of a mirror of `http://a/1.png`. -/
def entry4M : Entry := ⟨4, 10, 100, "<p>x</p><img alt=\"m\" src=\"http://m/1.png\">", false⟩

/-- Entry 5, without image tag. -/
def entry5 : Entry := ⟨5, 10, 100, "<p>no image</p>", false⟩

/-- A store with five unarchived entries and no media. -/
def storeFive : Store := ⟨[], 1, [], [entryA1, entryB2, entry3AXB, entry4M, entry5]⟩

/-- An entry with the tags of two URLs that answer with the same bytes under
different content types. -/
def entryAN : Entry :=
  ⟨1, 10, 100, "<img src=\"http://a/1.png\">\n<img src=\"http://n/1.jpg\">", false⟩

/-- The entry `entryAN` without its first image tag. -/
def entryN : Entry := ⟨1, 10, 100, "<img src=\"http://n/1.jpg\">", false⟩

/-! ## Lemmas on the storage operations -/

theorem find_hash_some {l : List Medium} {h : String} {r : Medium}
    (hf : l.find? (fun r => decide (r.Hash = h)) = some r) : r ∈ l ∧ r.Hash = h := by
  have h1 := List.find?_some hf
  have h2 := List.mem_of_find?_eq_some hf
  exact ⟨h2, by simpa using h1⟩

theorem find_hash_none {l : List Medium} {h : String}
    (hf : l.find? (fun r => decide (r.Hash = h)) = none) : h ∉ l.map (fun r => r.Hash) := by
  intro hmem
  obtain ⟨r, hr, rfl⟩ := List.mem_map.1 hmem
  have := List.find?_eq_none.1 hf r hr
  simp at this

theorem MediumByHash_none {s : Store} {m : Medium}
    (hf : s.media.find? (fun r => decide (r.Hash = m.Hash)) = none) :
    MediumByHash false s m = (Err.nil, m) := by
  simp [MediumByHash, hf]

theorem MediumByHash_some {s : Store} {m r : Medium}
    (hf : s.media.find? (fun r => decide (r.Hash = m.Hash)) = some r) :
    MediumByHash false s m = (Err.nil, { m with ID := r.ID }) := by
  simp [MediumByHash, hf]


/-! ## Frame and invariant lemmas for `CreateEntryMedium` -/

theorem CreateEntryMediumAfterLookup_frame (D : Deps) (f : RefFaults) (s : Store) (e : Int)
    (src : String) (m : Medium) :
    (CreateEntryMediumAfterLookup D f s e src m).2.1.entries = s.entries ∧
    (∃ extra, (CreateEntryMediumAfterLookup D f s e src m).2.1.media = s.media ++ extra) ∧
    (∃ extra, (CreateEntryMediumAfterLookup D f s e src m).2.1.entry_media
      = s.entry_media ++ extra) := by
  rcases f with ⟨fl, fc, fk, ft⟩
  by_cases h0 : m.ID = 0 <;> cases fc <;> cases fk <;>
    simp [CreateEntryMediumAfterLookup, CreateMedium, h0]

theorem CreateEntryMedium_frame (D : Deps) (f : RefFaults) (s : Store) (e : Int)
    (src : String) (m : Medium) :
    (CreateEntryMedium D f s e src m).2.1.entries = s.entries ∧
    (∃ extra, (CreateEntryMedium D f s e src m).2.1.media = s.media ++ extra) ∧
    (∃ extra, (CreateEntryMedium D f s e src m).2.1.entry_media = s.entry_media ++ extra) := by
  unfold CreateEntryMedium
  cases hl : MediumByHash f.lookup s m with
  | mk err m1 =>
    cases err with
    | fail => simp
    | nil => simpa using CreateEntryMediumAfterLookup_frame D f s e src m1

theorem CreateEntryMediumAfterLookup_WF (D : Deps) (f : RefFaults) (s : Store) (e : Int)
    (src : String) (m : Medium) (hs : s.WF)
    (hm : m.ID = 0 → m.Hash ∉ s.media.map (fun r => r.Hash)) :
    (CreateEntryMediumAfterLookup D f s e src m).2.1.WF := by
  obtain ⟨hid, hseq, hnd⟩ := hs
  rcases f with ⟨fl, fc, fk, ft⟩
  by_cases h0 : m.ID = 0
  · have hm0 := hm h0
    simp only [List.mem_map, not_exists, not_and] at hm0
    have hwf : Store.WF { s with
        media := s.media ++ [⟨s.media_id_seq, m.Hash, D.normalizeMimeType m.MimeType,
          m.Content, m.Text⟩],
        media_id_seq := s.media_id_seq + 1 } := by
      refine ⟨?_, ?_, ?_⟩
      · intro r hr
        simp only [List.mem_append, List.mem_singleton] at hr
        rcases hr with hr | rfl
        · exact hid r hr
        · exact hseq
      · show 0 < s.media_id_seq + 1
        omega
      · simp only [List.map_append, List.map_cons, List.map_nil]
        refine List.Nodup.append hnd (List.nodup_singleton _) ?_
        intro h hmem hsing
        rw [List.mem_singleton] at hsing
        subst hsing
        obtain ⟨r, hr, hrh⟩ := List.mem_map.1 hmem
        exact hm0 r hr hrh
    have hburn : Store.WF { s with media_id_seq := s.media_id_seq + 1 } :=
      ⟨hid, by show 0 < s.media_id_seq + 1; omega, hnd⟩
    cases fc <;> cases fk <;>
      simp [CreateEntryMediumAfterLookup, CreateMedium, h0]
    · exact hwf
    · exact hwf
    · exact ⟨hid, hseq, hnd⟩
    · exact ⟨hid, hseq, hnd⟩
    · exact hburn
    · exact hburn
  · cases fc <;> cases fk <;>
      simp [CreateEntryMediumAfterLookup, CreateMedium, h0] <;> exact ⟨hid, hseq, hnd⟩

theorem CreateEntryMedium_WF (D : Deps) (f : RefFaults) (s : Store) (e : Int)
    (src : String) (m : Medium) (hs : s.WF) :
    (CreateEntryMedium D f s e src m).2.1.WF := by
  unfold CreateEntryMedium
  cases hfl : f.lookup with
  | true => simpa [MediumByHash] using hs
  | false =>
    cases hf : s.media.find? (fun r => decide (r.Hash = m.Hash)) with
    | none =>
      simp only [MediumByHash_none hf]
      by_cases h0 : m.ID = 0
      · exact CreateEntryMediumAfterLookup_WF D f s e src m hs (fun _ => find_hash_none hf)
      · exact CreateEntryMediumAfterLookup_WF D f s e src m hs (fun h => absurd h h0)
    | some r =>
      simp only [MediumByHash_some hf]
      obtain ⟨hr, _⟩ := find_hash_some hf
      have hr0 : r.ID ≠ 0 := by have := hs.1 r hr; omega
      exact CreateEntryMediumAfterLookup_WF D f s e src _ hs (fun h => absurd h hr0)


/-! ## The hash lookup and the link of a resolved reference -/

theorem idByHash_eq (s : Store) (h : String) :
    idByHash s h =
      match s.media.find? (fun r => decide (r.Hash = h)) with
      | some r => r.ID
      | none => 0 := by
  unfold idByHash MediumByHash
  cases s.media.find? (fun r => decide (r.Hash = h)) <;> simp

/-- A hash that the lookup finds keeps its id when rows are appended to `media`. -/
theorem idByHash_append (s s1 : Store) (h : String) (extra : List Medium)
    (hm : s1.media = s.media ++ extra) (hne : idByHash s h ≠ 0) :
    idByHash s1 h = idByHash s h := by
  rw [idByHash_eq] at hne ⊢
  rw [idByHash_eq, hm, List.find?_append]
  cases hf : s.media.find? (fun r => decide (r.Hash = h)) with
  | none => simp [hf] at hne
  | some r => simp

/-- With every statement succeeding, `CreateEntryMedium` on a medium that carries
no id returns no error and adds one link row, which carries the id that the hash
lookup finds afterwards. -/
theorem CreateEntryMedium_ok (D : Deps) (s : Store) (e : Int) (src : String) (m : Medium)
    (hs : s.WF) (h0 : m.ID = 0) :
    (CreateEntryMedium D RefFaults.none s e src m).1 = Err.nil ∧
    (CreateEntryMedium D RefFaults.none s e src m).2.1.entry_media
      = s.entry_media ++
        [⟨e, idByHash (CreateEntryMedium D RefFaults.none s e src m).2.1 m.Hash, src⟩] ∧
    idByHash (CreateEntryMedium D RefFaults.none s e src m).2.1 m.Hash ≠ 0 ∧
    (CreateEntryMedium D RefFaults.none s e src m).2.2.ID
      = idByHash (CreateEntryMedium D RefFaults.none s e src m).2.1 m.Hash := by
  obtain ⟨hid, hseq, hnd⟩ := hs
  have hseq0 : s.media_id_seq ≠ 0 := by omega
  cases hf : s.media.find? (fun r => decide (r.Hash = m.Hash)) with
  | none =>
    simp [CreateEntryMedium, CreateEntryMediumAfterLookup, MediumByHash, CreateMedium, hf, h0,
      RefFaults.none, idByHash_eq, List.find?_append, hseq0]
  | some r =>
    obtain ⟨hr, hrh⟩ := find_hash_some hf
    have hr0 : r.ID ≠ 0 := by have := hid r hr; omega
    simp [CreateEntryMedium, CreateEntryMediumAfterLookup, MediumByHash, CreateMedium, hf,
      RefFaults.none, idByHash_eq, hr0]

/-! ## The loop of `FetchEntryMedia` without inline transcription -/

theorem fetchReference_links (D : Deps) (entry : Entry) (s : Store) (u : String) (hs : s.WF) :
    (fetchReference D none entry RefFaults.none s u).WF ∧
    (∃ extra, (fetchReference D none entry RefFaults.none s u).media = s.media ++ extra) ∧
    (fetchReference D none entry RefFaults.none s u).entries = s.entries ∧
    (fetchReference D none entry RefFaults.none s u).entry_media
      = s.entry_media ++ ((D.fetch u).map (fun r => (⟨entry.ID,
          idByHash (fetchReference D none entry RefFaults.none s u) (D.HashFromBytes r.1),
          u⟩ : EntryMedium))).toList ∧
    (∀ r, D.fetch u = some r →
      idByHash (fetchReference D none entry RefFaults.none s u) (D.HashFromBytes r.1) ≠ 0) := by
  cases hfetch : D.fetch u with
  | none => simp [fetchReference, DownloadFile, hfetch, hs]
  | some r =>
    have hok := CreateEntryMedium_ok D s entry.ID u
      ⟨0, D.HashFromBytes r.1, r.2, r.1, ""⟩ hs rfl
    have hfr := CreateEntryMedium_frame D RefFaults.none s entry.ID u
      ⟨0, D.HashFromBytes r.1, r.2, r.1, ""⟩
    have hwf := CreateEntryMedium_WF D RefFaults.none s entry.ID u
      ⟨0, D.HashFromBytes r.1, r.2, r.1, ""⟩ hs
    have hfr_eq : fetchReference D none entry RefFaults.none s u
        = (CreateEntryMedium D RefFaults.none s entry.ID u
            ⟨0, D.HashFromBytes r.1, r.2, r.1, ""⟩).2.1 := by
      simp only [fetchReference, DownloadFile, hfetch, Option.map_some']
      split <;> simp_all
    rw [hfr_eq]
    refine ⟨hwf, hfr.2.1, hfr.1, ?_, ?_⟩
    · simpa using hok.2.1
    · intro r1 hr1
      cases hr1
      exact hok.2.2.1

/-- The link rows that a run of the loop adds, all statements succeeding: one per
reference whose download succeeds, in the order of the references, each with the
id that the hash lookup finds in the final store. -/
theorem fetchLoop_links (D : Deps) (entry : Entry) :
    ∀ (refs : List String) (fl : Nat → RefFaults) (s : Store),
      (∀ i, fl i = RefFaults.none) → s.WF →
      (fetchLoop D none entry refs fl s).WF ∧
      (∃ extra, (fetchLoop D none entry refs fl s).media = s.media ++ extra) ∧
      (fetchLoop D none entry refs fl s).entries = s.entries ∧
      (fetchLoop D none entry refs fl s).entry_media
        = s.entry_media ++ refs.filterMap (fun u => (D.fetch u).map (fun r => (⟨entry.ID,
            idByHash (fetchLoop D none entry refs fl s) (D.HashFromBytes r.1), u⟩
              : EntryMedium))) ∧
      (∀ u ∈ refs, ∀ r, D.fetch u = some r →
        idByHash (fetchLoop D none entry refs fl s) (D.HashFromBytes r.1) ≠ 0) := by
  intro refs
  induction refs with
  | nil =>
    intro fl s _ hs
    simp [fetchLoop, hs]
  | cons u rest ih =>
    intro fl s hfl hs
    have h1 := fetchReference_links D entry s u hs
    have hstep : fetchLoop D none entry (u :: rest) fl s
        = fetchLoop D none entry rest (fun i => fl (i + 1))
            (fetchReference D none entry RefFaults.none s u) := by
      simp [fetchLoop, hfl 0]
    rw [hstep]
    have h2 := ih (fun i => fl (i + 1)) (fetchReference D none entry RefFaults.none s u)
      (fun i => hfl (i + 1)) h1.1
    generalize fetchLoop D none entry rest (fun i => fl (i + 1))
      (fetchReference D none entry RefFaults.none s u) = s2 at h2 ⊢
    generalize fetchReference D none entry RefFaults.none s u = s1 at h1 h2
    obtain ⟨_, ⟨x1, hx1⟩, he1, hl1, hid1⟩ := h1
    obtain ⟨hwf2, ⟨x2, hx2⟩, he2, hl2, hid2⟩ := h2
    have hstable : ∀ r, D.fetch u = some r →
        idByHash s2 (D.HashFromBytes r.1) = idByHash s1 (D.HashFromBytes r.1) :=
      fun r hr => idByHash_append s1 s2 _ x2 hx2 (hid1 r hr)
    refine ⟨hwf2, ⟨x1 ++ x2, by rw [hx2, hx1, List.append_assoc]⟩, by rw [he2, he1], ?_, ?_⟩
    · rw [hl2, hl1, List.append_assoc]
      congr 1
      cases hfetch : D.fetch u with
      | none => simp [List.filterMap_cons, hfetch]
      | some r => simp [List.filterMap_cons, hfetch, hstable r hfetch]
    · intro v hv r hr
      rcases List.mem_cons.1 hv with rfl | hv
      · rw [hstable r hr]
        exact hid1 r hr
      · exact hid2 v hv r hr


/-! ## Deduplication by hash -/

/-- C1 (idempotent dedup).  In a store that satisfies the schema invariant, two
calls of `CreateEntryMedium` for media values with `ID = 0` and the same hash, all
statements succeeding, both return no error; afterwards exactly one row of
`media` has that hash; the second call inserts no media row and the first at most
one; both calls leave the id of that row in their medium; and exactly the two
link rows `(e1, id, src1)`, `(e2, id, src2)` are added, in this order. -/
theorem C1_idempotent_dedup (D : Deps) (s : Store) (hs : s.WF) (m1 m2 : Medium)
    (e1 e2 : Int) (src1 src2 : String) (h1 : m1.ID = 0)
    (hh : m1.Hash = m2.Hash) (err1 err2 : Err) (s1 s2 : Store) (m1a m2a : Medium)
    (hr1 : CreateEntryMedium D RefFaults.none s e1 src1 m1 = (err1, s1, m1a))
    (hr2 : CreateEntryMedium D RefFaults.none s1 e2 src2 m2 = (err2, s2, m2a)) :
    err1 = Err.nil ∧ err2 = Err.nil ∧
    hashCount s2 m1.Hash = 1 ∧
    (∀ r ∈ s2.media, r.Hash = m1.Hash → r.ID = m1a.ID) ∧
    m2a.ID = m1a.ID ∧
    s2.media = s1.media ∧
    (s1.media = s.media ∨ ∃ row, s1.media = s.media ++ [row]) ∧
    s2.entry_media = s.entry_media ++ [⟨e1, m1a.ID, src1⟩, ⟨e2, m1a.ID, src2⟩] := by
  obtain ⟨hid, hseq, hnd⟩ := hs
  cases hf : s.media.find? (fun r => decide (r.Hash = m1.Hash)) with
  | none =>
    have hseq0 : s.media_id_seq ≠ 0 := by omega
    have hnot := find_hash_none hf
    have hcount := List.count_eq_zero_of_not_mem hnot
    simp [CreateEntryMedium, CreateEntryMediumAfterLookup, MediumByHash, CreateMedium, hf, h1,
      RefFaults.none] at hr1
    obtain ⟨rfl, rfl, rfl⟩ := hr1
    simp [CreateEntryMedium, CreateEntryMediumAfterLookup, MediumByHash, CreateMedium, hf,
      RefFaults.none, ← hh, hseq0, List.find?_append] at hr2
    obtain ⟨rfl, rfl, rfl⟩ := hr2
    simp only [List.mem_map, not_exists, not_and] at hnot
    refine ⟨rfl, rfl, ?_, ?_, rfl, rfl, Or.inr ⟨_, rfl⟩, by simp⟩
    · simp [hashCount, hcount]
    · intro r hr hrh
      simp only [List.mem_append, List.mem_singleton] at hr
      rcases hr with hr | rfl
      · exact absurd hrh (hnot r hr)
      · rfl
  | some r =>
    obtain ⟨hr, hrh⟩ := find_hash_some hf
    have hr0 : r.ID ≠ 0 := by have := hid r hr; omega
    have hmem : m1.Hash ∈ s.media.map (fun r => r.Hash) := List.mem_map.2 ⟨r, hr, hrh⟩
    simp [CreateEntryMedium, CreateEntryMediumAfterLookup, MediumByHash, CreateMedium, hf, h1,
      RefFaults.none, hr0] at hr1
    obtain ⟨rfl, rfl, rfl⟩ := hr1
    simp [CreateEntryMedium, CreateEntryMediumAfterLookup, MediumByHash, CreateMedium, hf,
      RefFaults.none, ← hh, hr0] at hr2
    obtain ⟨rfl, rfl, rfl⟩ := hr2
    refine ⟨rfl, rfl, ?_, ?_, rfl, rfl, Or.inl rfl, by simp⟩
    · simpa [hashCount] using List.count_eq_one_of_mem hnd hmem
    · intro r2 hr2 hrh2
      have : r2 = r := by
        have hinj := List.inj_on_of_nodup_map hnd
        exact hinj hr2 hr (hrh2.trans hrh.symm)
      simp [this]


/-! ## Re-resolution of an entry -/

theorem idByHash_mem (s : Store) (h : String) (hne : idByHash s h ≠ 0) :
    ∃ row ∈ s.media, row.Hash = h ∧ row.ID = idByHash s h := by
  rw [idByHash_eq] at hne ⊢
  cases hf : s.media.find? (fun r => decide (r.Hash = h)) with
  | none => simp [hf] at hne
  | some r =>
    obtain ⟨hr, hrh⟩ := find_hash_some hf
    exact ⟨r, hr, hrh, rfl⟩

theorem hashCount_eq_one (s : Store) (hs : s.WF) (row : Medium) (hr : row ∈ s.media) :
    hashCount s row.Hash = 1 :=
  List.count_eq_one_of_mem hs.2.2 (List.mem_map.2 ⟨row, hr, rfl⟩)

/-- C2 (re-resolution replaces, it does not merge).  In a store that satisfies
the schema invariant, with every store operation succeeding and any fetch
outcome per URL, `FetchEntryMedia(store, entry, nil)` returns no error, and
afterwards the link rows of `entry.ID` are exactly, in the order of the
references extracted from `entry.Content`, the rows `(entry.ID, id, u)` for the
references `u` whose fetch succeeded, `id` being the id of the one media row
whose hash is the hash of the bytes fetched for `u`.  A link row of `entry.ID`
from before the call whose reference string is not among the extracted
references is gone. -/
theorem C2_replace_not_merge (D : Deps) (s : Store) (hs : s.WF) (entry : Entry)
    (err : Err) (s1 : Store)
    (hrun : FetchEntryMedia D none EntryFaults.none s entry = (err, s1)) :
    err = Err.nil ∧
    s1.entry_media.filter (fun l => decide (l.EntryID = entry.ID))
      = (imgRegexSubmatches entry.Content).filterMap (fun u => (D.fetch u).map (fun r =>
          (⟨entry.ID, idByHash s1 (D.HashFromBytes r.1), u⟩ : EntryMedium))) ∧
    (∀ u ∈ imgRegexSubmatches entry.Content, ∀ r, D.fetch u = some r →
      hashCount s1 (D.HashFromBytes r.1) = 1 ∧
      ∃ row ∈ s1.media, row.Hash = D.HashFromBytes r.1 ∧
        row.ID = idByHash s1 (D.HashFromBytes r.1)) ∧
    (∀ l ∈ s.entry_media, l.EntryID = entry.ID →
      l.Source ∉ imgRegexSubmatches entry.Content → l ∉ s1.entry_media) := by
  have hs0 : Store.WF { s with
      entry_media := s.entry_media.filter (fun l => decide (l.EntryID ≠ entry.ID)) } := hs
  have hloop := fetchLoop_links D entry (imgRegexSubmatches entry.Content)
    (fun _ => RefFaults.none) _ (fun _ => rfl) hs0
  simp only [FetchEntryMedia, DeleteEntryMedia, EntryFaults.none, UpdateArchiveDate,
    Bool.false_eq_true, if_false, Prod.mk.injEq] at hrun
  obtain ⟨rfl, rfl⟩ := hrun
  generalize fetchLoop D none entry (imgRegexSubmatches entry.Content)
    (fun _ => RefFaults.none) _ = s2 at hloop ⊢
  obtain ⟨hwf, _, _, hl, hid⟩ := hloop
  have hidc : ∀ h, idByHash { s2 with entries := s2.entries.map (fun e =>
      if e.ID = entry.ID ∧ e.UserID = entry.UserID then { e with Archived := true } else e) } h
      = idByHash s2 h := fun h => by simp [idByHash_eq]
  have hfilter : s2.entry_media.filter (fun l => decide (l.EntryID = entry.ID))
      = (imgRegexSubmatches entry.Content).filterMap (fun u => (D.fetch u).map (fun r =>
          (⟨entry.ID, idByHash s2 (D.HashFromBytes r.1), u⟩ : EntryMedium))) := by
    rw [hl, List.filter_append, List.filter_filter]
    have hnil : List.filter (fun a => decide (a.EntryID = entry.ID) &&
        decide (a.EntryID ≠ entry.ID)) s.entry_media = [] := by
      rw [List.filter_eq_nil_iff]
      intro a _
      simp
    rw [hnil, List.nil_append, List.filter_eq_self]
    intro a ha
    obtain ⟨u, _, hu⟩ := List.mem_filterMap.1 ha
    cases hfu : D.fetch u with
    | none => simp [hfu] at hu
    | some r =>
      simp only [hfu, Option.map_some', Option.some.injEq] at hu
      subst hu
      simp
  refine ⟨rfl, ?_, ?_, ?_⟩
  · simp only [hidc]
    exact hfilter
  · intro u hu r hr
    simp only [hidc]
    obtain ⟨row, hrow, hrh, hrid⟩ := idByHash_mem s2 _ (hid u hu r hr)
    refine ⟨?_, row, hrow, hrh, hrid⟩
    have := hashCount_eq_one s2 hwf row hrow
    rw [hrh] at this
    simpa [hashCount] using this
  · intro l _ hle hsrc hmem
    have hmem2 : l ∈ s2.entry_media.filter (fun l => decide (l.EntryID = entry.ID)) := by
      rw [List.mem_filter]
      exact ⟨hmem, by simpa using hle⟩
    rw [hfilter] at hmem2
    obtain ⟨u, hu, hlu⟩ := List.mem_filterMap.1 hmem2
    cases hfu : D.fetch u with
    | none => simp [hfu] at hlu
    | some r =>
      simp only [hfu, Option.map_some', Option.some.injEq] at hlu
      subst hlu
      exact hsrc hu


/-! ## `imgRegex` on a single tag -/

theorem lazyCapture_none_of_no_quote : ∀ (u : List Char), '"' ∉ u → lazyCapture u = none
  | [], _ => rfl
  | c :: cs, h => by
    have hc : c ≠ '"' := fun e => h (by simp [e])
    have hcs : '"' ∉ cs := fun e => h (List.mem_cons_of_mem _ e)
    simp [lazyCapture, hc, lazyCapture_none_of_no_quote cs hcs]

theorem lazyCapture_clean : ∀ (u rest : List Char), '"' ∉ u → '\n' ∉ u →
    lazyCapture (u ++ '"' :: rest) = some (u, u.length + 1)
  | [], rest, _, _ => by simp [lazyCapture]
  | c :: cs, rest, h, hn => by
    have hc : c ≠ '"' := fun e => h (by simp [e])
    have hcn : c ≠ '\n' := fun e => hn (by simp [e])
    have hcs : '"' ∉ cs := fun e => h (List.mem_cons_of_mem _ e)
    have hcsn : '\n' ∉ cs := fun e => hn (List.mem_cons_of_mem _ e)
    simp [lazyCapture, hc, hcn, lazyCapture_clean cs rest hcs hcsn]

theorem srcAttr_none_of_count (t : List Char) (h : t.count '"' ≤ 1) : srcAttr t = none := by
  unfold srcAttr
  split
  · rename_i rest
    have hq : '"' ∉ rest := by
      intro hmem
      have := List.count_pos_iff.2 hmem
      simp [List.count_cons] at h
      omega
    simp [lazyCapture_none_of_no_quote rest hq]
  · rfl

theorem greedyThenSrc_none_of_count : ∀ (t : List Char), t.count '"' ≤ 1 →
    greedyThenSrc t = none
  | [], _ => by simp [greedyThenSrc, srcAttr]
  | c :: cs, h => by
    have hcs : cs.count '"' ≤ 1 := by
      have := List.count_le_count_cons (a := '"') (b := c) (l := cs)
      omega
    simp [greedyThenSrc, greedyThenSrc_none_of_count cs hcs, srcAttr_none_of_count _ h]

theorem findAll_skip : ∀ (l1 l2 : List Char), findAll l1.length (l1 ++ l2) = findAll 0 l2
  | [], l2 => rfl
  | c :: cs, l2 => by
    simp only [List.length_cons, List.cons_append, findAll]
    exact findAll_skip cs l2

/-- A content that is one tag `<img src="U">`, with `U` free of double quotes and
of newlines, yields the single reference `U`. -/
theorem imgRegexSubmatches_single (U : String) (hq : '"' ∉ U.data) (hn : '\n' ∉ U.data) :
    imgRegexSubmatches ("<img src=\"" ++ U ++ "\">") = [U] := by
  have hdata : ("<img src=\"" ++ U ++ "\">").data
      = '<' :: 'i' :: 'm' :: 'g' :: ' ' :: 's' :: 'r' :: 'c' :: '=' :: '"' ::
          (U.data ++ '"' :: ['>']) := by
    simp [String.data_append]
  have hcount : (U.data ++ '"' :: ['>']).count '"' ≤ 1 := by
    simp [List.count_append, List.count_cons, List.count_eq_zero_of_not_mem hq]
  have h5 := greedyThenSrc_none_of_count _ hcount
  have hcap := lazyCapture_clean U.data ['>'] hq hn
  have hmatch : matchAt ('<' :: 'i' :: 'm' :: 'g' :: ' ' :: 's' :: 'r' :: 'c' :: '=' :: '"' ::
      (U.data ++ '"' :: ['>'])) = some (U.data, U.data.length + 11) := by
    simp [matchAt, greedyThenSrc, srcAttr, h5, hcap]
  have hskip := findAll_skip (U.data ++ ['"']) ['>']
  simp only [List.length_append, List.length_cons, List.length_nil, List.append_assoc,
    List.cons_append, List.nil_append, Nat.zero_add] at hskip
  unfold imgRegexSubmatches
  rw [hdata]
  simp only [findAll, hmatch]
  rw [hskip]
  simp [findAll, matchAt]

/-! ## Failures of single references -/

theorem fetchLoop_congr_faults (D : Deps) (client : Option Client) (entry : Entry) :
    ∀ (refs : List String) (fl fl1 : Nat → RefFaults) (s : Store),
      (∀ i, i < refs.length → fl i = fl1 i) →
      fetchLoop D client entry refs fl s = fetchLoop D client entry refs fl1 s
  | [], _, _, _, _ => rfl
  | u :: rest, fl, fl1, s, h => by
    simp only [fetchLoop]
    rw [h 0 (by simp)]
    exact fetchLoop_congr_faults D client entry rest _ _ _
      (fun i hi => h (i + 1) (by simpa using hi))

theorem fetchLoop_append (D : Deps) (client : Option Client) (entry : Entry) :
    ∀ (l1 l2 : List String) (fl : Nat → RefFaults) (s : Store),
      fetchLoop D client entry (l1 ++ l2) fl s
        = fetchLoop D client entry l2 (fun i => fl (i + l1.length))
            (fetchLoop D client entry l1 fl s)
  | [], l2, fl, s => by simp [fetchLoop]
  | u :: rest, l2, fl, s => by
    rw [List.cons_append]
    simp only [fetchLoop, List.length_cons]
    rw [fetchLoop_append D client entry rest l2]
    rfl

theorem fetchLoop_congr_entry (D : Deps) (client : Option Client) (e1 e2 : Entry)
    (h : e1.ID = e2.ID) :
    ∀ (refs : List String) (fl : Nat → RefFaults) (s : Store),
      fetchLoop D client e1 refs fl s = fetchLoop D client e2 refs fl s
  | [], _, _ => rfl
  | u :: rest, fl, s => by
    simp only [fetchLoop, fetchReference, h]
    exact fetchLoop_congr_entry D client e1 e2 h rest _ _

/-- A reference whose processing leaves the store as it was has no effect on the
rest of the loop. -/
theorem fetchLoop_skip (D : Deps) (client : Option Client) (entry : Entry)
    (pre post : List String) (r : String) (fl : Nat → RefFaults) (s : Store)
    (hid : fetchReference D client entry (fl pre.length)
        (fetchLoop D client entry pre fl s) r = fetchLoop D client entry pre fl s) :
    fetchLoop D client entry (pre ++ r :: post) fl s
      = fetchLoop D client entry (pre ++ post) (skipFault fl pre.length) s := by
  rw [fetchLoop_append, fetchLoop_append]
  have hpre : fetchLoop D client entry pre (skipFault fl pre.length) s
      = fetchLoop D client entry pre fl s :=
    fetchLoop_congr_faults D client entry pre _ _ s (fun i hi => by simp [skipFault, hi])
  rw [hpre]
  simp only [fetchLoop, Nat.zero_add, hid]
  apply fetchLoop_congr_faults
  intro i _
  simp only [skipFault, Nat.not_lt.2 (Nat.le_add_left pre.length i), if_false]
  congr 1
  omega

theorem fetchReference_download_fails (D : Deps) (client : Option Client) (entry : Entry)
    (f : RefFaults) (s : Store) (r : String) (h : DownloadFile D r = none) :
    fetchReference D client entry f s r = s := by
  simp [fetchReference, h]

theorem fetchReference_create_fails (D : Deps) (client : Option Client) (entry : Entry)
    (f : RefFaults) (s : Store) (r : String) (medium : Medium)
    (h : DownloadFile D r = some medium)
    (herr : (CreateEntryMedium D f s entry.ID r medium).1 = Err.fail) :
    fetchReference D client entry f s r = (CreateEntryMedium D f s entry.ID r medium).2.1 := by
  simp only [fetchReference, h]
  split
  · simp_all
  · simp_all

theorem downloadWorker_append (D : Deps) :
    ∀ (l1 l2 : List Entry) (fl : Nat → EntryFaults) (s : Store),
      downloadWorker D (l1 ++ l2) fl s
        = downloadWorker D l2 (fun i => fl (i + l1.length)) (downloadWorker D l1 fl s)
  | [], l2, fl, s => by simp [downloadWorker]
  | u :: rest, l2, fl, s => by
    rw [List.cons_append]
    simp only [downloadWorker, List.length_cons]
    rw [downloadWorker_append D rest l2]
    rfl

theorem FetchEntryMedia_skip (D : Deps) (client : Option Client) (fl : EntryFaults)
    (s : Store) (entry entry1 : Entry) (pre post : List String) (r : String)
    (hrefs : imgRegexSubmatches entry.Content = pre ++ r :: post)
    (hrefs1 : imgRegexSubmatches entry1.Content = pre ++ post)
    (hID : entry1.ID = entry.ID) (hUser : entry1.UserID = entry.UserID)
    (hid : fetchReference D client entry (fl.refs pre.length)
        (fetchLoop D client entry pre fl.refs (DeleteEntryMedia fl.delete s entry.ID).2) r
      = fetchLoop D client entry pre fl.refs (DeleteEntryMedia fl.delete s entry.ID).2) :
    FetchEntryMedia D client ⟨fl.delete, skipFault fl.refs pre.length, fl.archive⟩ s entry1
      = FetchEntryMedia D client fl s entry := by
  unfold FetchEntryMedia
  rw [hrefs, hrefs1, hID, hUser]
  cases hd : fl.delete with
  | true => simp [DeleteEntryMedia]
  | false =>
    rw [hd] at hid
    simp only [DeleteEntryMedia, Bool.false_eq_true, if_false] at hid ⊢
    rw [fetchLoop_skip D client entry pre post r fl.refs _ hid]
    rw [fetchLoop_congr_entry D client entry1 entry hID]

theorem FetchEntryMedia_err (D : Deps) (client : Option Client) (fl : EntryFaults)
    (s : Store) (entry : Entry) :
    (FetchEntryMedia D client fl s entry).1 = Err.nil
      ↔ fl.delete = false ∧ fl.archive = false := by
  unfold FetchEntryMedia
  cases hd : fl.delete <;> cases ha : fl.archive <;>
    simp [DeleteEntryMedia, UpdateArchiveDate]

theorem FetchEntryMedia_archived (D : Deps) (client : Option Client) (fl : EntryFaults)
    (s : Store) (entry : Entry) (hd : fl.delete = false) (ha : fl.archive = false) :
    ∀ e ∈ (FetchEntryMedia D client fl s entry).2.entries,
      e.ID = entry.ID → e.UserID = entry.UserID → e.Archived = true := by
  unfold FetchEntryMedia
  simp only [DeleteEntryMedia, UpdateArchiveDate, hd, ha, Bool.false_eq_true, if_false]
  intro e he hID hUser
  obtain ⟨e0, _, rfl⟩ := List.mem_map.1 he
  by_cases h : e0.ID = entry.ID ∧ e0.UserID = entry.UserID
  · simp [h]
  · simp only [h, if_false] at hID hUser
    exact absurd ⟨hID, hUser⟩ h

/-! ## The race between the hash lookup and the insert -/

/-- With every statement succeeding, `CreateEntryMedium` on a medium without id
whose hash no row has inserts the new row and its link. -/
theorem CreateEntryMedium_absent (D : Deps) (s : Store) (e : Int) (src : String) (m : Medium)
    (h0 : m.ID = 0) (hf : s.media.find? (fun r => decide (r.Hash = m.Hash)) = none) :
    CreateEntryMedium D RefFaults.none s e src m
      = (Err.nil,
          { s with media := s.media ++ [newMediaRow D s m],
                   media_id_seq := s.media_id_seq + 1,
                   entry_media := s.entry_media ++ [⟨e, s.media_id_seq, src⟩] },
          { m with ID := s.media_id_seq }) := by
  simp [CreateEntryMedium, CreateEntryMediumAfterLookup, MediumByHash, CreateMedium, hf, h0,
    RefFaults.none, newMediaRow]

/-- C4 (race between lookup and create), as amended.  Worker A looks the hash up
in a store `s` that satisfies the schema invariant and finds no row.  Before A
goes on, worker B resolves a medium with the same hash (`CreateEntryMedium`, all
statements succeeding), which gives the store `sB`.  When A's insert into `media`
is then refused on the uniqueness of the hash, `CreateEntryMedium` of A returns
that error: it does not look the hash up again and inserts no link row, and all it
leaves in the store is the sequence value that the refused insert has drawn.
In the store after A's call exactly one media row has the hash; the link rows are
those of before and B's, which carries the id of that row; and when no link row
of `s` carries an id that the sequence had not issued, B's is the only link row that
points to that row. -/
theorem C4_create_race (D : Deps) (s : Store) (hs : s.WF) (mA mB : Medium) (eA eB : Int)
    (srcA srcB : String) (f : RefFaults) (hB : mB.ID = 0)
    (hh : mB.Hash = mA.Hash)
    (habsent : (MediumByHash false s mA).2.ID = 0)
    (errB : Err) (sB : Store) (mB1 : Medium)
    (hrunB : CreateEntryMedium D RefFaults.none s eB srcB mB = (errB, sB, mB1))
    (hcreate : f.create = InsertFault.refused) :
    (MediumByHash false s mA).1 = Err.nil ∧
    errB = Err.nil ∧
    CreateEntryMediumAfterLookup D f sB eA srcA (MediumByHash false s mA).2
      = (Err.fail, { sB with media_id_seq := sB.media_id_seq + 1 },
          (MediumByHash false s mA).2) ∧
    hashCount (CreateEntryMediumAfterLookup D f sB eA srcA (MediumByHash false s mA).2).2.1
      mA.Hash = 1 ∧
    (∃ row ∈ (CreateEntryMediumAfterLookup D f sB eA srcA (MediumByHash false s mA).2).2.1.media,
      row.Hash = mA.Hash ∧ row.ID = mB1.ID) ∧
    (CreateEntryMediumAfterLookup D f sB eA srcA (MediumByHash false s mA).2).2.1.entry_media
      = s.entry_media ++ [⟨eB, mB1.ID, srcB⟩] ∧
    ((∀ l ∈ s.entry_media, l.MediumID < s.media_id_seq) →
      ∀ l ∈ (CreateEntryMediumAfterLookup D f sB eA srcA
          (MediumByHash false s mA).2).2.1.entry_media,
        l.MediumID = mB1.ID → l = ⟨eB, mB1.ID, srcB⟩) := by
  have hfind : s.media.find? (fun r => decide (r.Hash = mB.Hash)) = none := by
    rw [hh]
    cases hf : s.media.find? (fun r => decide (r.Hash = mA.Hash)) with
    | none => rfl
    | some r0 =>
      obtain ⟨hr0, _⟩ := find_hash_some hf
      have hpos := hs.1 r0 hr0
      simp [MediumByHash, hf] at habsent
      omega
  have hnot := find_hash_none hfind
  rw [CreateEntryMedium_absent D s eB srcB mB hB hfind] at hrunB
  simp only [Prod.mk.injEq] at hrunB
  obtain ⟨rfl, rfl, rfl⟩ := hrunB
  have hres : CreateEntryMediumAfterLookup D f
      { s with media := s.media ++ [newMediaRow D s mB],
               media_id_seq := s.media_id_seq + 1,
               entry_media := s.entry_media ++ [⟨eB, s.media_id_seq, srcB⟩] }
      eA srcA (MediumByHash false s mA).2
      = (Err.fail,
          { s with media := s.media ++ [newMediaRow D s mB],
                   media_id_seq := s.media_id_seq + 1 + 1,
                   entry_media := s.entry_media ++ [⟨eB, s.media_id_seq, srcB⟩] },
          (MediumByHash false s mA).2) := by
    simp [CreateEntryMediumAfterLookup, CreateMedium, habsent, hcreate]
  rw [hres]
  refine ⟨?_, rfl, rfl, ?_, ?_, rfl, ?_⟩
  · unfold MediumByHash
    cases s.media.find? (fun r => decide (r.Hash = mA.Hash)) <;> simp
  · rw [← hh]
    simp [hashCount, newMediaRow, List.count_eq_zero_of_not_mem hnot]
  · exact ⟨newMediaRow D s mB, by simp, hh, rfl⟩
  · intro hold l hl hid
    simp only [List.mem_append, List.mem_singleton] at hl
    rcases hl with hl | hl
    · have := hold l hl
      simp only at hid
      omega
    · exact hl

/-- C4 as amended, at sample values, in the empty store: worker B stores the bytes
`ab` for entry 2 between the lookup and the insert of worker A. -/
theorem C4_create_race_witness :
    emptyStore.WF ∧
    MediumByHash false emptyStore mediumA = (Err.nil, mediumA) ∧
    CreateEntryMedium sampleDeps RefFaults.none emptyStore 2 "http://m/1.png" mediumA
      = (Err.nil, storeAfterOther, { mediumA with ID := 1 }) ∧
    CreateEntryMediumAfterLookup sampleDeps ⟨false, InsertFault.refused, false, false⟩
        storeAfterOther 1 "http://a/1.png" mediumA
      = (Err.fail, { storeAfterOther with media_id_seq := 3 }, mediumA) ∧
    (∀ l ∈ storeAfterOther.entry_media, l.MediumID = 1 → l = ⟨2, 1, "http://m/1.png"⟩) :=
  have hwf : emptyStore.WF := ⟨by decide, by decide, by decide⟩
  have hlook : MediumByHash false emptyStore mediumA = (Err.nil, mediumA) := by decide
  have hrunB : CreateEntryMedium sampleDeps RefFaults.none emptyStore 2 "http://m/1.png" mediumA
      = (Err.nil, storeAfterOther, { mediumA with ID := 1 }) := by decide
  have h := C4_create_race sampleDeps emptyStore hwf mediumA mediumA 1 2 "http://a/1.png"
    "http://m/1.png" ⟨false, InsertFault.refused, false, false⟩ rfl rfl (by decide) Err.nil
    storeAfterOther { mediumA with ID := 1 } hrunB rfl
  ⟨hwf, hlook, hrunB, h.2.2.1, h.2.2.2.2.2.2 (by decide)⟩

/-- C4 as stated fails: worker A finds no row with hash `ab` in the empty store,
worker B then stores the bytes for entry 2, and A's insert into `media` fails.
`CreateEntryMedium` of A returns the error and the link row of A is not in the
store. -/
theorem C4_no_retry_counterexample :
    MediumByHash false emptyStore mediumA = (Err.nil, mediumA) ∧
    mediumA.ID = 0 ∧
    (CreateEntryMedium sampleDeps RefFaults.none emptyStore 2 "http://m/1.png" mediumA).2.1
      = storeAfterOther ∧
    (CreateEntryMediumAfterLookup sampleDeps ⟨false, InsertFault.refused, false, false⟩ storeAfterOther 1
      "http://a/1.png" mediumA).1 = Err.fail ∧
    (CreateEntryMediumAfterLookup sampleDeps ⟨false, InsertFault.refused, false, false⟩ storeAfterOther 1
      "http://a/1.png" mediumA).2.1.entry_media = [⟨2, 1, "http://m/1.png"⟩] ∧
    ¬ ∃ l ∈ (CreateEntryMediumAfterLookup sampleDeps ⟨false, InsertFault.refused, false, false⟩
        storeAfterOther 1 "http://a/1.png" mediumA).2.1.entry_media, l.EntryID = 1 := by
  decide

/-! ## Transcription -/

theorem UpdateMediaText_text (s : Store) (media : Medium) :
    ∀ r ∈ (UpdateMediaText false s media).2.media, r.ID = media.ID → r.Text = media.Text := by
  intro r hr hid
  simp only [UpdateMediaText, Bool.false_eq_true, if_false] at hr
  obtain ⟨r0, _, rfl⟩ := List.mem_map.1 hr
  by_cases h : r0.ID = media.ID
  · simp [h]
  · simp only [h, if_false] at hid

/-- C6 (transcription is not repeated).  When the engine accepts the image and
returns the empty text, `TranscribeMedia` hands `UpdateMediaText` the medium with
the text `-`.  After any call of `TranscribeMedia` that returns no error the text
of the medium is not empty, it is the text of every stored row with the id of the
medium, a row with that id that was stored is still stored, and
`MediaWithNoTexts` returns no row with that id, whatever the limit. -/
theorem C6_transcription_idempotence (client : Client) (updateFails : Bool) (s : Store)
    (media : Medium) (err : Err) (s1 : Store) (media1 : Medium)
    (hrun : TranscribeMedia client updateFails s media = (err, s1, media1)) :
    (client.SetImageFromBytes media.Content = Err.nil →
      client.Text media.Content = ("", Err.nil) →
      media1 = { media with Text := "-" } ∧
      (err, s1) = UpdateMediaText updateFails s { media with Text := "-" }) ∧
    (err = Err.nil →
      media1.Text ≠ "" ∧
      media1.ID = media.ID ∧
      (∀ r ∈ s1.media, r.ID = media.ID → r.Text = media1.Text) ∧
      ((∃ r ∈ s.media, r.ID = media.ID) → ∃ r ∈ s1.media, r.ID = media.ID) ∧
      ∀ (fail : Bool) (limit : Int), ∀ r ∈ (MediaWithNoTexts fail s1 limit).2,
        r.ID ≠ media.ID) := by
  constructor
  · intro hset htext
    simp only [TranscribeMedia, hset, htext, if_true, Prod.mk.injEq] at hrun
    obtain ⟨h1, h2, h3⟩ := hrun
    subst h1 h2 h3
    exact ⟨rfl, rfl⟩
  · intro herr
    subst herr
    have key : media1.Text ≠ "" ∧ media1.ID = media.ID ∧
        s1 = (UpdateMediaText false s media1).2 := by
      revert hrun
      unfold TranscribeMedia
      cases client.SetImageFromBytes media.Content with
      | fail => simp
      | nil =>
        cases (client.Text media.Content).2 with
        | fail => simp
        | nil =>
          cases updateFails with
          | true => simp [UpdateMediaText]
          | false =>
            by_cases ht : (client.Text media.Content).1 = ""
            · simp only [ht, if_true, Prod.mk.injEq, true_and]
              rintro ⟨_, rfl, rfl⟩
              exact ⟨by simp, rfl, rfl⟩
            · simp only [ht, if_false, Prod.mk.injEq, true_and]
              rintro ⟨_, rfl, rfl⟩
              exact ⟨ht, rfl, rfl⟩
    obtain ⟨hne, hid, hs1⟩ := key
    have htext : ∀ r ∈ s1.media, r.ID = media.ID → r.Text = media1.Text := by
      intro r hr hrid
      rw [hs1] at hr
      exact UpdateMediaText_text s media1 r hr (hrid.trans hid.symm)
    refine ⟨hne, hid, htext, ?_, ?_⟩
    · rintro ⟨r, hr, hrid⟩
      rw [hs1]
      simp only [UpdateMediaText, Bool.false_eq_true, if_false]
      refine ⟨if r.ID = media1.ID then { r with Text := media1.Text } else r,
        List.mem_map.2 ⟨r, hr, rfl⟩, ?_⟩
      by_cases h : r.ID = media1.ID
      · simp [h, hid]
      · exact absurd (hrid.trans hid.symm) h
    · intro fail limit r hr hrid
      unfold MediaWithNoTexts at hr
      split at hr
      · simp at hr
      · have hmem := List.mem_of_mem_take hr
        rw [List.mem_filter] at hmem
        have h1 : r.Text = "" := by simpa using hmem.2
        exact hne ((htext r hmem.1 hrid).symm.trans h1)

/-- C7 (a failed transcription leaves the medium pending).  When the engine
fails in `SetImageFromBytes` or in `Text`, `TranscribeMedia` returns an error and
the store is the one before the call, whether or not `UpdateMediaText` would have
succeeded; `MediaWithNoTexts` selects what it selected before, and a stored row
with the empty text is selected whenever the limit is at least the number of rows
with the empty text. -/
theorem C7_transcription_failure (client : Client) (updateFails : Bool) (s : Store)
    (media : Medium)
    (hfail : client.SetImageFromBytes media.Content = Err.fail ∨
      (client.Text media.Content).2 = Err.fail) :
    (TranscribeMedia client updateFails s media).1 = Err.fail ∧
    (TranscribeMedia client updateFails s media).2.1 = s ∧
    TranscribeMedia client true s media = TranscribeMedia client false s media ∧
    (∀ (fail : Bool) (limit : Int),
      MediaWithNoTexts fail (TranscribeMedia client updateFails s media).2.1 limit
        = MediaWithNoTexts fail s limit) ∧
    (∀ row ∈ s.media, row.Text = "" → ∀ limit : Int,
      ((s.media.filter (fun r => decide (r.Text = ""))).length : Int) ≤ limit →
      row ∈ (MediaWithNoTexts false (TranscribeMedia client updateFails s media).2.1
        limit).2) := by
  have hres : ∀ uf, (TranscribeMedia client uf s media).1 = Err.fail ∧
      (TranscribeMedia client uf s media).2.1 = s ∧
      (TranscribeMedia client uf s media).2.2.ID = media.ID ∧
      TranscribeMedia client uf s media = TranscribeMedia client false s media := by
    intro uf
    unfold TranscribeMedia
    rcases hfail with h | h
    · simp [h]
    · cases client.SetImageFromBytes media.Content <;> simp [h]
  obtain ⟨h1, h2, _, _⟩ := hres updateFails
  refine ⟨h1, h2, (hres true).2.2.2, ?_, ?_⟩
  · intro fail limit
    rw [h2]
  · intro row hrow htext limit hlimit
    rw [h2]
    have hnonneg : ¬ limit < 0 := by
      have : (0 : Int) ≤ ((s.media.filter (fun r => decide (r.Text = ""))).length : Int) :=
        Int.natCast_nonneg _
      omega
    simp only [MediaWithNoTexts, Bool.false_eq_true, false_or, hnonneg, if_false]
    rw [List.take_of_length_le (by omega)]
    rw [List.mem_filter]
    exact ⟨hrow, by simpa using htext⟩

/-! ## One run of `downloadMedia` -/

/-- C8 (end-to-end run).  The store has no media row and no link row, and its
entries are two unarchived entries with different ids, each with the content
`<img src="U">` for a URL free of double quotes and newlines.  The two URLs
download, as `image/png` and as `image/jpeg`, to payloads with different hashes.
With every store operation succeeding, one run of `downloadMedia` with batch size 2
and one worker leaves exactly two media rows, exactly two link rows, one per
entry with the URL of that entry, both entries archived, and reports 2 jobs. -/
theorem C8_end_to_end (D : Deps) (e1 e2 : Entry) (U1 U2 : String) (b1 b2 : Bytes)
    (seq : Int)
    (hq1 : '"' ∉ U1.data) (hn1 : '\n' ∉ U1.data)
    (hq2 : '"' ∉ U2.data) (hn2 : '\n' ∉ U2.data)
    (hc1 : e1.Content = "<img src=\"" ++ U1 ++ "\">")
    (hc2 : e2.Content = "<img src=\"" ++ U2 ++ "\">")
    (ha1 : e1.Archived = false) (ha2 : e2.Archived = false) (hne : e1.ID ≠ e2.ID)
    (hf1 : D.fetch U1 = some (b1, "image/png")) (hf2 : D.fetch U2 = some (b2, "image/jpeg"))
    (hh : D.HashFromBytes b1 ≠ D.HashFromBytes b2) :
    downloadMedia D false (fun _ => EntryFaults.none) ⟨[], seq, [], [e1, e2]⟩ 2
      = (⟨[⟨seq, D.HashFromBytes b1, D.normalizeMimeType "image/png", b1, ""⟩,
            ⟨seq + 1, D.HashFromBytes b2, D.normalizeMimeType "image/jpeg", b2, ""⟩],
          seq + 1 + 1,
          [⟨e1.ID, seq, U1⟩, ⟨e2.ID, seq + 1, U2⟩],
          [{ e1 with Archived := true }, { e2 with Archived := true }]⟩,
        some 2) := by
  have hr1 := imgRegexSubmatches_single U1 hq1 hn1
  have hr2 := imgRegexSubmatches_single U2 hq2 hn2
  have hne2 : ¬ (e2.ID = e1.ID) := fun h => hne h.symm
  have hh2 : ¬ (D.HashFromBytes b2 = D.HashFromBytes b1) := fun h => hh h.symm
  simp [downloadMedia, GetEntries, ha1, ha2, downloadWorker, FetchEntryMedia, DeleteEntryMedia,
    hc1, hc2, hr1, hr2, fetchLoop, fetchReference, DownloadFile, hf1, hf2, CreateEntryMedium,
    MediumByHash, CreateEntryMediumAfterLookup, CreateMedium, UpdateArchiveDate,
    EntryFaults.none, RefFaults.none, hne, hne2, hh, hh2]

/-! ## Media rows are never deleted -/

theorem UpdateMediaText_frame (uf : Bool) (s : Store) (m1 : Medium) :
    (UpdateMediaText uf s m1).2.media.map Medium.key = s.media.map Medium.key ∧
    (UpdateMediaText uf s m1).2.entry_media = s.entry_media ∧
    (∀ r ∈ s.media, r.ID ≠ m1.ID → r ∈ (UpdateMediaText uf s m1).2.media) := by
  cases uf with
  | true => exact ⟨rfl, rfl, fun r hr _ => hr⟩
  | false =>
    simp only [UpdateMediaText, Bool.false_eq_true, if_false, List.map_map, true_and]
    constructor
    · apply List.map_congr_left
      intro r _
      by_cases h : r.ID = m1.ID <;> simp [h, Medium.key]
    · intro r hr hne
      refine List.mem_map.2 ⟨r, hr, ?_⟩
      simp [hne]

theorem TranscribeMedia_frame (client : Client) (uf : Bool) (s : Store) (m : Medium) :
    (TranscribeMedia client uf s m).2.1.media.map Medium.key = s.media.map Medium.key ∧
    (TranscribeMedia client uf s m).2.1.entry_media = s.entry_media ∧
    (∀ r ∈ s.media, r.ID ≠ m.ID → r ∈ (TranscribeMedia client uf s m).2.1.media) := by
  unfold TranscribeMedia
  cases client.SetImageFromBytes m.Content with
  | fail => exact ⟨rfl, rfl, fun r hr _ => hr⟩
  | nil =>
    cases (client.Text m.Content).2 with
    | fail => exact ⟨rfl, rfl, fun r hr _ => hr⟩
    | nil =>
      by_cases ht : (client.Text m.Content).1 = ""
      · simp only [ht, if_true]
        exact UpdateMediaText_frame uf s _
      · simp only [ht, if_false]
        exact UpdateMediaText_frame uf s _

theorem fetchReference_frame (D : Deps) (client : Option Client) (entry : Entry)
    (f : RefFaults) (s : Store) (u : String) :
    s.media.map Medium.key <+: (fetchReference D client entry f s u).media.map Medium.key ∧
    (client = none → s.media <+: (fetchReference D client entry f s u).media) := by
  cases hdl : DownloadFile D u with
  | none =>
    simp only [fetchReference, hdl]
    exact ⟨List.prefix_refl _, fun _ => List.prefix_refl _⟩
  | some medium =>
    obtain ⟨_, ⟨extra, hextra⟩, _⟩ := CreateEntryMedium_frame D f s entry.ID u medium
    have hpre : s.media <+: (CreateEntryMedium D f s entry.ID u medium).2.1.media :=
      ⟨extra, hextra.symm⟩
    have hkeys : s.media.map Medium.key
        <+: (CreateEntryMedium D f s entry.ID u medium).2.1.media.map Medium.key :=
      ⟨extra.map Medium.key, by rw [hextra, List.map_append]⟩
    rcases hce : CreateEntryMedium D f s entry.ID u medium with ⟨err, s1, m1⟩
    rw [hce] at hpre hkeys
    simp only [fetchReference, hdl, hce]
    cases err with
    | fail => exact ⟨hkeys, fun _ => hpre⟩
    | nil =>
      cases client with
      | none => exact ⟨hkeys, fun _ => hpre⟩
      | some c =>
        refine ⟨?_, fun h => by cases h⟩
        show s.media.map Medium.key <+: (TranscribeMedia c f.text s1 m1).2.1.media.map Medium.key
        rw [(TranscribeMedia_frame c f.text s1 m1).1]
        exact hkeys

theorem fetchLoop_frame (D : Deps) (client : Option Client) (entry : Entry) :
    ∀ (refs : List String) (fl : Nat → RefFaults) (s : Store),
      s.media.map Medium.key <+: (fetchLoop D client entry refs fl s).media.map Medium.key ∧
      (client = none → s.media <+: (fetchLoop D client entry refs fl s).media)
  | [], _, s => ⟨List.prefix_refl _, fun _ => List.prefix_refl _⟩
  | u :: rest, fl, s => by
    have h1 := fetchReference_frame D client entry (fl 0) s u
    have h2 := fetchLoop_frame D client entry rest (fun i => fl (i + 1))
      (fetchReference D client entry (fl 0) s u)
    exact ⟨h1.1.trans h2.1, fun h => (h1.2 h).trans (h2.2 h)⟩

theorem FetchEntryMedia_frame (D : Deps) (client : Option Client) (fl : EntryFaults)
    (s : Store) (entry : Entry) :
    s.media.map Medium.key <+: (FetchEntryMedia D client fl s entry).2.media.map Medium.key ∧
    (client = none → s.media <+: (FetchEntryMedia D client fl s entry).2.media) := by
  unfold FetchEntryMedia
  cases hd : fl.delete with
  | true => exact ⟨by simp [DeleteEntryMedia], fun _ => by simp [DeleteEntryMedia]⟩
  | false =>
    have h := fetchLoop_frame D client entry (imgRegexSubmatches entry.Content) fl.refs
      { s with entry_media := s.entry_media.filter (fun l => decide (l.EntryID ≠ entry.ID)) }
    cases ha : fl.archive <;>
      simpa [DeleteEntryMedia, UpdateArchiveDate] using h

/-- C9 (clearing links never deletes media).  `DeleteEntryMedia(e)` changes
nothing but the table `entry_media`: the media rows, with their texts, the
sequence and the entries are as before; the link rows left are those of the
other entries, in their order, and the rows of every other entry are the same
as before; a failed delete changes nothing.  `FetchEntryMedia` keeps every
media row in place with its id, hash, MIME type and content, and with its text
too when no engine is passed; `TranscribeMedia` keeps every media row in place
with its id, hash, MIME type and content, keeps every row with another id as it
is, and does not touch the link rows.  The text of a row is the only thing these
operations change in the table `media`, apart from appending rows. -/
theorem C9_media_never_deleted (D : Deps) (client : Option Client) (fl : EntryFaults)
    (s : Store) (entry : Entry) (e : Int) (c : Client) (updateFails : Bool) (m : Medium) :
    (DeleteEntryMedia false s e).1 = Err.nil ∧
    (DeleteEntryMedia false s e).2.media = s.media ∧
    (DeleteEntryMedia false s e).2.media_id_seq = s.media_id_seq ∧
    (DeleteEntryMedia false s e).2.entries = s.entries ∧
    (∀ l, l ∈ (DeleteEntryMedia false s e).2.entry_media ↔ l ∈ s.entry_media ∧ l.EntryID ≠ e) ∧
    (DeleteEntryMedia false s e).2.entry_media.Sublist s.entry_media ∧
    (∀ e1, e1 ≠ e →
      (DeleteEntryMedia false s e).2.entry_media.filter (fun l => decide (l.EntryID = e1))
        = s.entry_media.filter (fun l => decide (l.EntryID = e1))) ∧
    (DeleteEntryMedia true s e).2 = s ∧
    s.media.map Medium.key <+: (FetchEntryMedia D client fl s entry).2.media.map Medium.key ∧
    s.media <+: (FetchEntryMedia D none fl s entry).2.media ∧
    (TranscribeMedia c updateFails s m).2.1.media.map Medium.key = s.media.map Medium.key ∧
    (∀ r ∈ s.media, r.ID ≠ m.ID → r ∈ (TranscribeMedia c updateFails s m).2.1.media) ∧
    (TranscribeMedia c updateFails s m).2.1.entry_media = s.entry_media := by
  have ht := TranscribeMedia_frame c updateFails s m
  refine ⟨rfl, rfl, rfl, rfl, ?_, ?_, ?_, rfl, (FetchEntryMedia_frame D client fl s entry).1,
    (FetchEntryMedia_frame D none fl s entry).2 rfl, ht.1, ht.2.2, ht.2.1⟩
  · intro l
    simp [DeleteEntryMedia, List.mem_filter]
  · simp only [DeleteEntryMedia, Bool.false_eq_true, if_false]
    exact List.filter_sublist _
  · intro e1 he1
    simp only [DeleteEntryMedia, Bool.false_eq_true, if_false, List.filter_filter]
    apply List.filter_congr
    intro l _
    by_cases h : l.EntryID = e1
    · simp [h, he1]
    · simp [h]

/-! ## A reference that fails -/

theorem DownloadFile_ID (D : Deps) (u : String) (medium : Medium)
    (h : DownloadFile D u = some medium) : medium.ID = 0 := by
  unfold DownloadFile at h
  cases hf : D.fetch u with
  | none => simp [hf] at h
  | some r =>
    simp only [hf, Option.map_some', Option.some.injEq] at h
    rw [← h]

/-- A failing call of `CreateEntryMedium` adds no link row.  It leaves the store as
it was, or with the sequence advanced by one, or with the sequence advanced by one
and the new media row appended. -/
theorem CreateEntryMedium_fail (D : Deps) (f : RefFaults) (s : Store) (e : Int)
    (src : String) (m : Medium)
    (herr : (CreateEntryMedium D f s e src m).1 = Err.fail) :
    (CreateEntryMedium D f s e src m).2.1 = s ∨
    (CreateEntryMedium D f s e src m).2.1 = { s with media_id_seq := s.media_id_seq + 1 } ∨
    (CreateEntryMedium D f s e src m).2.1
      = { s with media := s.media ++ [newMediaRow D s m],
                 media_id_seq := s.media_id_seq + 1 } := by
  rcases f with ⟨fl, fc, fk, ft⟩
  revert herr
  cases fl
  · cases hf : s.media.find? (fun r => decide (r.Hash = m.Hash)) with
    | none =>
      by_cases h0 : m.ID = 0 <;> cases fc <;> cases fk <;>
        simp [CreateEntryMedium, CreateEntryMediumAfterLookup, MediumByHash, CreateMedium, hf, h0,
          newMediaRow]
    | some r =>
      by_cases h0 : r.ID = 0 <;> cases fc <;> cases fk <;>
        simp [CreateEntryMedium, CreateEntryMediumAfterLookup, MediumByHash, CreateMedium, hf, h0,
          newMediaRow]
  · simp [CreateEntryMedium, MediumByHash]

/-- The link insert that fails after `CreateMedium` has succeeded leaves the new
media row in the store. -/
theorem CreateEntryMedium_link_fails (D : Deps) (f : RefFaults) (s : Store) (e : Int)
    (src : String) (m : Medium) (h0 : m.ID = 0) (hl : f.lookup = false)
    (habs : idByHash s m.Hash = 0) (hc : f.create = InsertFault.ok) (hk : f.link = true) :
    (CreateEntryMedium D f s e src m).1 = Err.fail ∧
    (CreateEntryMedium D f s e src m).2.1
      = { s with media := s.media ++ [newMediaRow D s m],
                 media_id_seq := s.media_id_seq + 1 } := by
  rcases f with ⟨fl, fc, fk, ft⟩
  simp only at hl hc hk
  subst hl hc hk
  rw [idByHash_eq] at habs
  cases hf : s.media.find? (fun r => decide (r.Hash = m.Hash)) with
  | none =>
    simp [CreateEntryMedium, CreateEntryMediumAfterLookup, MediumByHash, CreateMedium, hf, h0,
      newMediaRow]
  | some r =>
    simp only [hf] at habs
    simp [CreateEntryMedium, CreateEntryMediumAfterLookup, MediumByHash, CreateMedium, hf, habs,
      newMediaRow]

/-- The failures of `CreateEntryMedium` that happen before a media row is
inserted, and the failure of the link insert for a medium that is stored
already. -/
theorem CreateEntryMedium_early_failures (D : Deps) (f : RefFaults) (s : Store) (e : Int)
    (src : String) (m : Medium) (h0 : m.ID = 0) :
    (f.lookup = true →
      (CreateEntryMedium D f s e src m).1 = Err.fail ∧
      (CreateEntryMedium D f s e src m).2.1 = s) ∧
    (f.lookup = false → idByHash s m.Hash = 0 → f.create = InsertFault.lost →
      (CreateEntryMedium D f s e src m).1 = Err.fail ∧
      (CreateEntryMedium D f s e src m).2.1 = s) ∧
    (f.lookup = false → idByHash s m.Hash = 0 → f.create = InsertFault.refused →
      (CreateEntryMedium D f s e src m).1 = Err.fail ∧
      (CreateEntryMedium D f s e src m).2.1
        = { s with media_id_seq := s.media_id_seq + 1 }) ∧
    (f.lookup = false → idByHash s m.Hash ≠ 0 → f.link = true →
      (CreateEntryMedium D f s e src m).1 = Err.fail ∧
      (CreateEntryMedium D f s e src m).2.1 = s) := by
  rcases f with ⟨fl, fc, fk, ft⟩
  rw [idByHash_eq]
  refine ⟨?_, ?_, ?_, ?_⟩
  · intro hl
    simp only at hl
    subst hl
    simp [CreateEntryMedium, MediumByHash]
  · intro hl habs hc
    simp only at hl hc
    subst hl hc
    cases hf : s.media.find? (fun r => decide (r.Hash = m.Hash)) with
    | none =>
      simp [CreateEntryMedium, CreateEntryMediumAfterLookup, MediumByHash, CreateMedium, hf, h0]
    | some r =>
      simp only [hf] at habs
      simp [CreateEntryMedium, CreateEntryMediumAfterLookup, MediumByHash, CreateMedium, hf,
        habs]
  · intro hl habs hc
    simp only at hl hc
    subst hl hc
    cases hf : s.media.find? (fun r => decide (r.Hash = m.Hash)) with
    | none =>
      simp [CreateEntryMedium, CreateEntryMediumAfterLookup, MediumByHash, CreateMedium, hf, h0]
    | some r =>
      simp only [hf] at habs
      simp [CreateEntryMedium, CreateEntryMediumAfterLookup, MediumByHash, CreateMedium, hf,
        habs]
  · intro hl hpres hk
    simp only at hl hk
    subst hl hk
    cases hf : s.media.find? (fun r => decide (r.Hash = m.Hash)) with
    | none => simp [hf] at hpres
    | some r =>
      simp only [hf] at hpres
      simp [CreateEntryMedium, CreateEntryMediumAfterLookup, MediumByHash, CreateMedium, hf,
        hpres]

theorem FetchEntryMedia_continue (D : Deps) (client : Option Client) (fl : EntryFaults)
    (s : Store) (entry : Entry) (pre post : List String) (r : String) (medium : Medium)
    (hrefs : imgRegexSubmatches entry.Content = pre ++ r :: post)
    (hdl : DownloadFile D r = some medium)
    (herr : (CreateEntryMedium D (fl.refs pre.length) (storeAfterPrefix D client fl s entry pre)
      entry.ID r medium).1 = Err.fail)
    (hd : fl.delete = false) :
    FetchEntryMedia D client fl s entry
      = UpdateArchiveDate fl.archive
          (fetchLoop D client entry post (fun i => fl.refs (i + (pre.length + 1)))
            (CreateEntryMedium D (fl.refs pre.length)
              (storeAfterPrefix D client fl s entry pre) entry.ID r medium).2.1)
          entry.UserID entry.ID := by
  unfold storeAfterPrefix at herr ⊢
  have hstep := fetchReference_create_fails D client entry _ _ r medium hdl herr
  unfold FetchEntryMedia
  rw [hrefs]
  rw [hd] at hstep ⊢
  simp only [DeleteEntryMedia, Bool.false_eq_true, if_false] at hstep ⊢
  rw [fetchLoop_append]
  simp only [fetchLoop, Nat.zero_add]
  rw [hstep]
  congr 2
  funext i
  congr 1
  omega

theorem UpdateArchiveDate_media (fail : Bool) (s : Store) (userID entryID : Int) :
    (UpdateArchiveDate fail s userID entryID).2.media = s.media := by
  cases fail <;> rfl

/-- C3 (skip and continue), as amended.  Let the content of `entry` yield the
references `pre ++ r :: post`, and let `storeAfterPrefix` be the store when the
loop reaches `r`.
(1) When the step for `r` fails in `DownloadFile`, or `CreateEntryMedium` fails for
`r` and leaves the store as it was, `FetchEntryMedia` ends, store and result, as
it does for an entry with the same ids whose content yields `pre ++ post`, every
reference after `r` being processed with the database outcomes it had.
(2) When `CreateEntryMedium` fails for `r` in any way, the store after it is the
store before, or the store before with the id sequence of `media` advanced by
one, or the store before with the sequence advanced by one and the new media row
appended: no link row is added.  The loop goes on with the references `post` from
that store.
(3) `CreateEntryMedium` fails and leaves the store as it was when the hash lookup
fails, when the lookup finds no row and the insert into `media` fails before an id
was drawn, and when the lookup finds a row and the link insert fails.  When the
lookup finds no row and the insert into `media` is refused after the id was drawn,
it fails and leaves the store with the sequence advanced by one.
(4) When the hash lookup succeeds and finds no row, `CreateMedium` succeeds and the
link insert fails, `CreateEntryMedium` fails and the store after it is the store
before with the new media row appended and the sequence advanced by one; that
row, with its id, hash, MIME type and content, is in the store at the end of
`FetchEntryMedia`.
(5) `FetchEntryMedia` returns no error exactly when `DeleteEntryMedia` and
`UpdateArchiveDate` succeed, whatever happens to the references.
(6) When both succeed the entry is marked archived.
(7) A worker that runs a batch of five entries, the third of which has the
reference `r` failing to download, ends with the store that the five calls of
`FetchEntryMedia` give one after the other, each on the store of the one before
and whatever error it returns, the third on an entry without `r`. -/
theorem C3_skip_and_continue (D : Deps) (client : Option Client) (fl : EntryFaults)
    (s : Store) (entry : Entry) (pre post : List String) (r : String)
    (hrefs : imgRegexSubmatches entry.Content = pre ++ r :: post) :
    ((DownloadFile D r = none ∨
      ∃ medium, DownloadFile D r = some medium ∧
        (CreateEntryMedium D (fl.refs pre.length) (storeAfterPrefix D client fl s entry pre)
          entry.ID r medium).1 = Err.fail ∧
        (CreateEntryMedium D (fl.refs pre.length) (storeAfterPrefix D client fl s entry pre)
          entry.ID r medium).2.1 = storeAfterPrefix D client fl s entry pre) →
      ∀ entry1 : Entry, entry1.ID = entry.ID → entry1.UserID = entry.UserID →
        imgRegexSubmatches entry1.Content = pre ++ post →
        FetchEntryMedia D client ⟨fl.delete, skipFault fl.refs pre.length, fl.archive⟩ s entry1
          = FetchEntryMedia D client fl s entry) ∧
    (∀ medium, DownloadFile D r = some medium →
      (CreateEntryMedium D (fl.refs pre.length) (storeAfterPrefix D client fl s entry pre)
        entry.ID r medium).1 = Err.fail →
      ((CreateEntryMedium D (fl.refs pre.length) (storeAfterPrefix D client fl s entry pre)
          entry.ID r medium).2.1 = storeAfterPrefix D client fl s entry pre ∨
        (CreateEntryMedium D (fl.refs pre.length) (storeAfterPrefix D client fl s entry pre)
          entry.ID r medium).2.1
          = { storeAfterPrefix D client fl s entry pre with
              media_id_seq := (storeAfterPrefix D client fl s entry pre).media_id_seq + 1 } ∨
        (CreateEntryMedium D (fl.refs pre.length) (storeAfterPrefix D client fl s entry pre)
          entry.ID r medium).2.1
          = { storeAfterPrefix D client fl s entry pre with
              media := (storeAfterPrefix D client fl s entry pre).media
                ++ [newMediaRow D (storeAfterPrefix D client fl s entry pre) medium],
              media_id_seq := (storeAfterPrefix D client fl s entry pre).media_id_seq + 1 }) ∧
      (fl.delete = false →
        FetchEntryMedia D client fl s entry
          = UpdateArchiveDate fl.archive
              (fetchLoop D client entry post (fun i => fl.refs (i + (pre.length + 1)))
                (CreateEntryMedium D (fl.refs pre.length)
                  (storeAfterPrefix D client fl s entry pre) entry.ID r medium).2.1)
              entry.UserID entry.ID)) ∧
    (∀ medium, DownloadFile D r = some medium →
      ((fl.refs pre.length).lookup = true →
        (CreateEntryMedium D (fl.refs pre.length) (storeAfterPrefix D client fl s entry pre)
          entry.ID r medium).1 = Err.fail ∧
        (CreateEntryMedium D (fl.refs pre.length) (storeAfterPrefix D client fl s entry pre)
          entry.ID r medium).2.1 = storeAfterPrefix D client fl s entry pre) ∧
      ((fl.refs pre.length).lookup = false →
        idByHash (storeAfterPrefix D client fl s entry pre) medium.Hash = 0 →
        (fl.refs pre.length).create = InsertFault.lost →
        (CreateEntryMedium D (fl.refs pre.length) (storeAfterPrefix D client fl s entry pre)
          entry.ID r medium).1 = Err.fail ∧
        (CreateEntryMedium D (fl.refs pre.length) (storeAfterPrefix D client fl s entry pre)
          entry.ID r medium).2.1 = storeAfterPrefix D client fl s entry pre) ∧
      ((fl.refs pre.length).lookup = false →
        idByHash (storeAfterPrefix D client fl s entry pre) medium.Hash = 0 →
        (fl.refs pre.length).create = InsertFault.refused →
        (CreateEntryMedium D (fl.refs pre.length) (storeAfterPrefix D client fl s entry pre)
          entry.ID r medium).1 = Err.fail ∧
        (CreateEntryMedium D (fl.refs pre.length) (storeAfterPrefix D client fl s entry pre)
          entry.ID r medium).2.1
          = { storeAfterPrefix D client fl s entry pre with
              media_id_seq := (storeAfterPrefix D client fl s entry pre).media_id_seq + 1 }) ∧
      ((fl.refs pre.length).lookup = false →
        idByHash (storeAfterPrefix D client fl s entry pre) medium.Hash ≠ 0 →
        (fl.refs pre.length).link = true →
        (CreateEntryMedium D (fl.refs pre.length) (storeAfterPrefix D client fl s entry pre)
          entry.ID r medium).1 = Err.fail ∧
        (CreateEntryMedium D (fl.refs pre.length) (storeAfterPrefix D client fl s entry pre)
          entry.ID r medium).2.1 = storeAfterPrefix D client fl s entry pre)) ∧
    (∀ medium, DownloadFile D r = some medium →
      (fl.refs pre.length).lookup = false →
      idByHash (storeAfterPrefix D client fl s entry pre) medium.Hash = 0 →
      (fl.refs pre.length).create = InsertFault.ok →
      (fl.refs pre.length).link = true →
      (CreateEntryMedium D (fl.refs pre.length) (storeAfterPrefix D client fl s entry pre)
        entry.ID r medium).1 = Err.fail ∧
      (CreateEntryMedium D (fl.refs pre.length) (storeAfterPrefix D client fl s entry pre)
        entry.ID r medium).2.1
        = { storeAfterPrefix D client fl s entry pre with
            media := (storeAfterPrefix D client fl s entry pre).media
              ++ [newMediaRow D (storeAfterPrefix D client fl s entry pre) medium],
            media_id_seq := (storeAfterPrefix D client fl s entry pre).media_id_seq + 1 } ∧
      (fl.delete = false →
        (newMediaRow D (storeAfterPrefix D client fl s entry pre) medium).key
          ∈ (FetchEntryMedia D client fl s entry).2.media.map Medium.key)) ∧
    ((FetchEntryMedia D client fl s entry).1 = Err.nil
      ↔ fl.delete = false ∧ fl.archive = false) ∧
    (fl.delete = false → fl.archive = false →
      ∀ e ∈ (FetchEntryMedia D client fl s entry).2.entries,
        e.ID = entry.ID → e.UserID = entry.UserID → e.Archived = true) ∧
    (DownloadFile D r = none →
      ∀ (e1 e2 e4 e5 entry1 : Entry) (jfl : Nat → EntryFaults) (s0 : Store),
        entry1.ID = entry.ID → entry1.UserID = entry.UserID →
        imgRegexSubmatches entry1.Content = pre ++ post →
        downloadWorker D [e1, e2, entry, e4, e5] jfl s0
          = (FetchEntryMedia D none (jfl 4)
              (FetchEntryMedia D none (jfl 3)
                (FetchEntryMedia D none
                  ⟨(jfl 2).delete, skipFault (jfl 2).refs pre.length, (jfl 2).archive⟩
                  (FetchEntryMedia D none (jfl 1)
                    (FetchEntryMedia D none (jfl 0) s0 e1).2 e2).2 entry1).2 e4).2 e5).2) := by
  refine ⟨?_, ?_, ?_, ?_, FetchEntryMedia_err D client fl s entry,
    FetchEntryMedia_archived D client fl s entry, ?_⟩
  · intro hfail entry1 hID hUser hrefs1
    apply FetchEntryMedia_skip D client fl s entry entry1 pre post r hrefs hrefs1 hID hUser
    rcases hfail with hdl | ⟨medium, hdl, herr, hsame⟩
    · exact fetchReference_download_fails D client entry _ _ r hdl
    · unfold storeAfterPrefix at herr hsame
      rw [fetchReference_create_fails D client entry _ _ r medium hdl herr]
      exact hsame
  · intro medium hdl herr
    exact ⟨CreateEntryMedium_fail D _ _ _ _ _ herr,
      FetchEntryMedia_continue D client fl s entry pre post r medium hrefs hdl herr⟩
  · intro medium hdl
    exact CreateEntryMedium_early_failures D (fl.refs pre.length)
      (storeAfterPrefix D client fl s entry pre) entry.ID r medium
      (DownloadFile_ID D r medium hdl)
  · intro medium hdl hl habs hc hk
    have h := CreateEntryMedium_link_fails D (fl.refs pre.length)
      (storeAfterPrefix D client fl s entry pre) entry.ID r medium
      (DownloadFile_ID D r medium hdl) hl habs hc hk
    refine ⟨h.1, h.2, ?_⟩
    intro hd
    rw [FetchEntryMedia_continue D client fl s entry pre post r medium hrefs hdl h.1 hd,
      UpdateArchiveDate_media]
    have hpre := (fetchLoop_frame D client entry post (fun i => fl.refs (i + (pre.length + 1)))
      (CreateEntryMedium D (fl.refs pre.length)
        (storeAfterPrefix D client fl s entry pre) entry.ID r medium).2.1).1
    apply List.IsPrefix.subset hpre
    rw [h.2]
    simp
  · intro hdl e1 e2 e4 e5 entry1 jfl s0 hID hUser hrefs1
    simp only [downloadWorker, Nat.zero_add, Nat.reduceAdd]
    rw [FetchEntryMedia_skip D none (jfl 2) _ entry entry1 pre post r hrefs hrefs1 hID hUser
      (fetchReference_download_fails D none entry _ _ r hdl)]

/-- C3 as amended, at sample values.  In a batch of five entries the third has
three image tags, the second of which does not download: the worker ends with all
five entries archived and the links of the two other tags of entry 3.  For an
entry with two tags whose first link insert fails, the media row of the first tag
stays in the store. -/
theorem C3_skip_and_continue_witness :
    imgRegexSubmatches entry3AXB.Content
      = ["http://a/1.png"] ++ "http://x/0.gif" :: ["http://b/2.jpg"] ∧
    DownloadFile sampleDeps "http://x/0.gif" = none ∧
    FetchEntryMedia sampleDeps none
        ⟨false, skipFault EntryFaults.none.refs 1, false⟩ storeFive entry3AB
      = FetchEntryMedia sampleDeps none EntryFaults.none storeFive entry3AXB ∧
    (FetchEntryMedia sampleDeps none EntryFaults.none storeFive entry3AXB).1 = Err.nil ∧
    downloadWorker sampleDeps [entryA1, entryB2, entry3AXB, entry4M, entry5]
        (fun _ => EntryFaults.none) storeFive
      = ⟨[⟨1, "ab", "image/png", [97, 98], ""⟩, ⟨2, "c", "image/jpeg", [99], ""⟩], 3,
          [⟨1, 1, "http://a/1.png"⟩, ⟨2, 2, "http://b/2.jpg"⟩, ⟨3, 1, "http://a/1.png"⟩,
            ⟨3, 2, "http://b/2.jpg"⟩, ⟨4, 1, "http://m/1.png"⟩],
          [{ entryA1 with Archived := true }, { entryB2 with Archived := true },
            { entry3AXB with Archived := true }, { entry4M with Archived := true },
            { entry5 with Archived := true }]⟩ ∧
    imgRegexSubmatches entryAB.Content = [] ++ "http://a/1.png" :: ["http://b/2.jpg"] ∧
    (CreateEntryMedium sampleDeps (linkFaultFirst.refs 0)
        (storeAfterPrefix sampleDeps none linkFaultFirst emptyStore entryAB [])
        1 "http://a/1.png" mediumA).1 = Err.fail ∧
    (1, "ab", "image/png", [97, 98])
      ∈ (FetchEntryMedia sampleDeps none linkFaultFirst emptyStore entryAB).2.media.map
          Medium.key :=
  have hrefs : imgRegexSubmatches entry3AXB.Content
      = ["http://a/1.png"] ++ "http://x/0.gif" :: ["http://b/2.jpg"] := by decide
  have hdl : DownloadFile sampleDeps "http://x/0.gif" = none := by decide
  have h := C3_skip_and_continue sampleDeps none EntryFaults.none storeFive entry3AXB
    ["http://a/1.png"] ["http://b/2.jpg"] "http://x/0.gif" hrefs
  have hrefs2 : imgRegexSubmatches entryAB.Content
      = [] ++ "http://a/1.png" :: ["http://b/2.jpg"] := by decide
  have h2 := (C3_skip_and_continue sampleDeps none linkFaultFirst emptyStore entryAB
    [] ["http://b/2.jpg"] "http://a/1.png" hrefs2).2.2.2.1 mediumA (by decide) rfl (by decide)
    rfl rfl
  ⟨hrefs, hdl, h.1 (Or.inl hdl) entry3AB rfl rfl (by decide), h.2.2.2.2.1.2 ⟨rfl, rfl⟩,
    (h.2.2.2.2.2.2 hdl entryA1 entryB2 entry4M entry5 entry3AB (fun _ => EntryFaults.none)
      storeFive rfl rfl (by decide)).trans (by decide),
    hrefs2, h2.1, h2.2.2 rfl⟩

/-- C3 as stated fails when `CreateEntryMedium` fails in the insert of the link:
the media row it has created stays, and the rows of the next reference differ
from those of a run without the failing reference.  First, the entry has the
tags of `http://a/1.png` and `http://b/2.jpg` and the link insert fails for the
first: the medium of the second gets the id 2 instead of 1.  Second, the entry has
the tags of `http://a/1.png` and `http://n/1.jpg`, which answer with the same
bytes as `image/png` and as `image/jpeg`, and the link insert fails for the first:
the second reference is linked to the row stored as `image/png`, while without
the first reference its row is stored as `image/jpeg`. -/
theorem C3_link_failure_counterexample :
    imgRegexSubmatches entryAB.Content = ["http://a/1.png", "http://b/2.jpg"] ∧
    imgRegexSubmatches entryB.Content = ["http://b/2.jpg"] ∧
    DownloadFile sampleDeps "http://a/1.png" = some ⟨0, "ab", "image/png", [97, 98], ""⟩ ∧
    (CreateEntryMedium sampleDeps (linkFaultFirst.refs 0) emptyStore 1 "http://a/1.png"
      ⟨0, "ab", "image/png", [97, 98], ""⟩).1 = Err.fail ∧
    FetchEntryMedia sampleDeps none linkFaultFirst emptyStore entryAB
      = (Err.nil,
          ⟨[⟨1, "ab", "image/png", [97, 98], ""⟩, ⟨2, "c", "image/jpeg", [99], ""⟩], 3,
            [⟨1, 2, "http://b/2.jpg"⟩], []⟩) ∧
    FetchEntryMedia sampleDeps none ⟨false, skipFault linkFaultFirst.refs 0, false⟩
        emptyStore entryB
      = (Err.nil, ⟨[⟨1, "c", "image/jpeg", [99], ""⟩], 2, [⟨1, 1, "http://b/2.jpg"⟩], []⟩) ∧
    ¬ ((FetchEntryMedia sampleDeps none linkFaultFirst emptyStore entryAB).2.media
        = (FetchEntryMedia sampleDeps none ⟨false, skipFault linkFaultFirst.refs 0, false⟩
            emptyStore entryB).2.media ∧
      (FetchEntryMedia sampleDeps none linkFaultFirst emptyStore entryAB).2.entry_media
        = (FetchEntryMedia sampleDeps none ⟨false, skipFault linkFaultFirst.refs 0, false⟩
            emptyStore entryB).2.entry_media) ∧
    imgRegexSubmatches entryAN.Content = ["http://a/1.png", "http://n/1.jpg"] ∧
    imgRegexSubmatches entryN.Content = ["http://n/1.jpg"] ∧
    FetchEntryMedia sampleDeps none linkFaultFirst emptyStore entryAN
      = (Err.nil,
          ⟨[⟨1, "ab", "image/png", [97, 98], ""⟩], 2, [⟨1, 1, "http://n/1.jpg"⟩], []⟩) ∧
    FetchEntryMedia sampleDeps none ⟨false, skipFault linkFaultFirst.refs 0, false⟩
        emptyStore entryN
      = (Err.nil,
          ⟨[⟨1, "ab", "image/jpeg", [97, 98], ""⟩], 2, [⟨1, 1, "http://n/1.jpg"⟩], []⟩) ∧
    (FetchEntryMedia sampleDeps none linkFaultFirst emptyStore entryAN).2.media
      ≠ (FetchEntryMedia sampleDeps none ⟨false, skipFault linkFaultFirst.refs 0, false⟩
          emptyStore entryN).2.media := by
  decide

/-! ## The schema invariant is kept by the pipeline -/

theorem WF_of_keys (s s1 : Store) (hk : s1.media.map Medium.key = s.media.map Medium.key)
    (hseq : s1.media_id_seq = s.media_id_seq) (hs : s.WF) : s1.WF := by
  obtain ⟨hid, hpos, hnd⟩ := hs
  have hids : s1.media.map (fun r => r.ID) = s.media.map (fun r => r.ID) := by
    have := congrArg (List.map (fun k : Int × String × String × Bytes => k.1)) hk
    simpa [List.map_map, Function.comp_def, Medium.key] using this
  have hhash : s1.media.map (fun r => r.Hash) = s.media.map (fun r => r.Hash) := by
    have := congrArg (List.map (fun k : Int × String × String × Bytes => k.2.1)) hk
    simpa [List.map_map, Function.comp_def, Medium.key] using this
  refine ⟨?_, by rw [hseq]; exact hpos, by rw [hhash]; exact hnd⟩
  intro r hr
  have hmem : r.ID ∈ s1.media.map (fun r => r.ID) := List.mem_map.2 ⟨r, hr, rfl⟩
  rw [hids] at hmem
  obtain ⟨r0, hr0, h0⟩ := List.mem_map.1 hmem
  have := hid r0 hr0
  have h1 : r0.ID = r.ID := h0
  omega

theorem TranscribeMedia_WF (client : Client) (uf : Bool) (s : Store) (m : Medium)
    (hs : s.WF) : (TranscribeMedia client uf s m).2.1.WF := by
  apply WF_of_keys s _ (TranscribeMedia_frame client uf s m).1 _ hs
  unfold TranscribeMedia
  cases client.SetImageFromBytes m.Content with
  | fail => rfl
  | nil =>
    cases (client.Text m.Content).2 with
    | fail => rfl
    | nil => cases uf <;> simp [UpdateMediaText]

theorem fetchReference_WF (D : Deps) (client : Option Client) (entry : Entry)
    (f : RefFaults) (s : Store) (u : String) (hs : s.WF) :
    (fetchReference D client entry f s u).WF := by
  cases hdl : DownloadFile D u with
  | none => simpa [fetchReference, hdl] using hs
  | some medium =>
    have hwf := CreateEntryMedium_WF D f s entry.ID u medium hs
    rcases hce : CreateEntryMedium D f s entry.ID u medium with ⟨err, s1, m1⟩
    rw [hce] at hwf
    simp only [fetchReference, hdl, hce]
    cases err with
    | fail => exact hwf
    | nil =>
      cases client with
      | none => exact hwf
      | some c => exact TranscribeMedia_WF c f.text s1 m1 hwf

theorem fetchLoop_WF (D : Deps) (client : Option Client) (entry : Entry) :
    ∀ (refs : List String) (fl : Nat → RefFaults) (s : Store), s.WF →
      (fetchLoop D client entry refs fl s).WF
  | [], _, _, hs => hs
  | u :: rest, fl, s, hs =>
    fetchLoop_WF D client entry rest _ _ (fetchReference_WF D client entry (fl 0) s u hs)

/-- Every call of `FetchEntryMedia` keeps the schema invariant, whatever fails. -/
theorem FetchEntryMedia_WF (D : Deps) (client : Option Client) (fl : EntryFaults)
    (s : Store) (entry : Entry) (hs : s.WF) : (FetchEntryMedia D client fl s entry).2.WF := by
  unfold FetchEntryMedia
  cases hd : fl.delete with
  | true => simpa [DeleteEntryMedia] using hs
  | false =>
    have hs0 : Store.WF { s with
        entry_media := s.entry_media.filter (fun l => decide (l.EntryID ≠ entry.ID)) } := hs
    have h := fetchLoop_WF D client entry (imgRegexSubmatches entry.Content) fl.refs _ hs0
    cases ha : fl.archive
    · simp only [DeleteEntryMedia, UpdateArchiveDate, Bool.false_eq_true, if_false]
      exact h
    · simp only [DeleteEntryMedia, UpdateArchiveDate, Bool.false_eq_true, if_false, if_true]
      exact h

/-- A run of the worker of `downloadMedia` keeps the schema invariant. -/
theorem downloadWorker_WF (D : Deps) :
    ∀ (entries : List Entry) (fl : Nat → EntryFaults) (s : Store), s.WF →
      (downloadWorker D entries fl s).WF
  | [], _, _, hs => hs
  | e :: rest, fl, s, hs =>
    downloadWorker_WF D rest _ _ (FetchEntryMedia_WF D none (fl 0) s e hs)

/-- The empty database satisfies the schema invariant. -/
theorem emptyStore_WF : emptyStore.WF := ⟨by decide, by decide, by decide⟩

/-! ## The theorems at sample values -/

/-- C1 at sample values, in the empty store: the bytes `ab` are
stored for entry 1 under one URL and for entry 2 under another. -/
theorem C1_idempotent_dedup_witness :
    emptyStore.WF ∧
    CreateEntryMedium sampleDeps RefFaults.none emptyStore 1 "http://a/1.png" mediumA
      = (Err.nil,
          ⟨[⟨1, "ab", "image/png", [97, 98], ""⟩], 2, [⟨1, 1, "http://a/1.png"⟩], []⟩,
          { mediumA with ID := 1 }) ∧
    CreateEntryMedium sampleDeps RefFaults.none
        ⟨[⟨1, "ab", "image/png", [97, 98], ""⟩], 2, [⟨1, 1, "http://a/1.png"⟩], []⟩
        2 "http://m/1.png" mediumA
      = (Err.nil,
          ⟨[⟨1, "ab", "image/png", [97, 98], ""⟩], 2,
            [⟨1, 1, "http://a/1.png"⟩, ⟨2, 1, "http://m/1.png"⟩], []⟩,
          { mediumA with ID := 1 }) ∧
    hashCount ⟨[⟨1, "ab", "image/png", [97, 98], ""⟩], 2,
      [⟨1, 1, "http://a/1.png"⟩, ⟨2, 1, "http://m/1.png"⟩], []⟩ "ab" = 1 :=
  have hwf : emptyStore.WF := ⟨by decide, by decide, by decide⟩
  have h1 : CreateEntryMedium sampleDeps RefFaults.none emptyStore 1 "http://a/1.png" mediumA
      = (Err.nil,
          ⟨[⟨1, "ab", "image/png", [97, 98], ""⟩], 2, [⟨1, 1, "http://a/1.png"⟩], []⟩,
          { mediumA with ID := 1 }) := by decide
  have h2 : CreateEntryMedium sampleDeps RefFaults.none
        ⟨[⟨1, "ab", "image/png", [97, 98], ""⟩], 2, [⟨1, 1, "http://a/1.png"⟩], []⟩
        2 "http://m/1.png" mediumA
      = (Err.nil,
          ⟨[⟨1, "ab", "image/png", [97, 98], ""⟩], 2,
            [⟨1, 1, "http://a/1.png"⟩, ⟨2, 1, "http://m/1.png"⟩], []⟩,
          { mediumA with ID := 1 }) := by decide
  have h := C1_idempotent_dedup sampleDeps emptyStore hwf mediumA mediumA 1 2
    "http://a/1.png" "http://m/1.png" rfl rfl Err.nil Err.nil _ _ _ _ h1 h2
  ⟨hwf, h1, h2, h.2.2.1⟩

/-- C2 at sample values: a store in which entry 1 has a link
from an earlier run whose URL is no longer in the content. -/
theorem C2_replace_not_merge_witness :
    storeWithOldLink.WF ∧
    FetchEntryMedia sampleDeps none EntryFaults.none storeWithOldLink entryAXB
      = (Err.nil,
          ⟨[⟨1, "ab", "image/png", [97, 98], ""⟩, ⟨2, "c", "image/jpeg", [99], ""⟩], 3,
            [⟨2, 1, "http://m/1.png"⟩, ⟨1, 1, "http://a/1.png"⟩, ⟨1, 2, "http://b/2.jpg"⟩],
            [{ entryAXB with Archived := true }]⟩) ∧
    (⟨1, 1, "http://old/0.png"⟩ : EntryMedium) ∉
      ([⟨2, 1, "http://m/1.png"⟩, ⟨1, 1, "http://a/1.png"⟩, ⟨1, 2, "http://b/2.jpg"⟩]
        : List EntryMedium) :=
  have hwf : storeWithOldLink.WF := ⟨by decide, by decide, by decide⟩
  have hrun : FetchEntryMedia sampleDeps none EntryFaults.none storeWithOldLink entryAXB
      = (Err.nil,
          ⟨[⟨1, "ab", "image/png", [97, 98], ""⟩, ⟨2, "c", "image/jpeg", [99], ""⟩], 3,
            [⟨2, 1, "http://m/1.png"⟩, ⟨1, 1, "http://a/1.png"⟩, ⟨1, 2, "http://b/2.jpg"⟩],
            [{ entryAXB with Archived := true }]⟩) := by decide
  have h := C2_replace_not_merge sampleDeps storeWithOldLink hwf entryAXB Err.nil _ hrun
  ⟨hwf, hrun, h.2.2.2 ⟨1, 1, "http://old/0.png"⟩ (by decide) rfl (by decide)⟩

/-- C6 at sample values: a stored medium in which the engine finds no text. -/
theorem C6_transcription_idempotence_witness :
    TranscribeMedia blankClient false storeAfterOther ⟨1, "ab", "image/png", [97, 98], ""⟩
      = (Err.nil,
          ⟨[⟨1, "ab", "image/png", [97, 98], "-"⟩], 2, [⟨2, 1, "http://m/1.png"⟩], []⟩,
          ⟨1, "ab", "image/png", [97, 98], "-"⟩) ∧
    ∀ r ∈ (MediaWithNoTexts false
        ⟨[⟨1, "ab", "image/png", [97, 98], "-"⟩], 2, [⟨2, 1, "http://m/1.png"⟩], []⟩ 10).2,
      r.ID ≠ 1 :=
  have hrun : TranscribeMedia blankClient false storeAfterOther
      ⟨1, "ab", "image/png", [97, 98], ""⟩
      = (Err.nil,
          ⟨[⟨1, "ab", "image/png", [97, 98], "-"⟩], 2, [⟨2, 1, "http://m/1.png"⟩], []⟩,
          ⟨1, "ab", "image/png", [97, 98], "-"⟩) := by decide
  have h := C6_transcription_idempotence blankClient false storeAfterOther
    ⟨1, "ab", "image/png", [97, 98], ""⟩ Err.nil _ _ hrun
  ⟨hrun, (h.2 rfl).2.2.2.2 false 10⟩

/-- C7 at sample values: a stored medium that the engine rejects. -/
theorem C7_transcription_failure_witness :
    blankClient.SetImageFromBytes [97, 98] = Err.nil ∧
    brokenClient.SetImageFromBytes [97, 98] = Err.fail ∧
    (TranscribeMedia brokenClient false storeAfterOther
      ⟨1, "ab", "image/png", [97, 98], ""⟩).1 = Err.fail ∧
    (TranscribeMedia brokenClient false storeAfterOther
      ⟨1, "ab", "image/png", [97, 98], ""⟩).2.1 = storeAfterOther ∧
    (⟨1, "ab", "image/png", [97, 98], ""⟩ : Medium) ∈
      (MediaWithNoTexts false (TranscribeMedia brokenClient false storeAfterOther
        ⟨1, "ab", "image/png", [97, 98], ""⟩).2.1 1).2 :=
  have h := C7_transcription_failure brokenClient false storeAfterOther
    ⟨1, "ab", "image/png", [97, 98], ""⟩ (Or.inl rfl)
  ⟨rfl, rfl, h.1, h.2.1, h.2.2.2.2 ⟨1, "ab", "image/png", [97, 98], ""⟩ (by decide) rfl 1
    (by decide)⟩

/-- C8 at sample values: the entries 1 and 2 with the tags of
`http://a/1.png` and `http://b/2.jpg`. -/
theorem C8_end_to_end_witness :
    sampleDeps.fetch "http://a/1.png" = some ([97, 98], "image/png") ∧
    sampleDeps.fetch "http://b/2.jpg" = some ([99], "image/jpeg") ∧
    sampleDeps.HashFromBytes [97, 98] ≠ sampleDeps.HashFromBytes [99] ∧
    downloadMedia sampleDeps false (fun _ => EntryFaults.none) ⟨[], 1, [], [entryA1, entryB2]⟩ 2
      = (⟨[⟨1, "ab", "image/png", [97, 98], ""⟩, ⟨2, "c", "image/jpeg", [99], ""⟩], 3,
          [⟨1, 1, "http://a/1.png"⟩, ⟨2, 2, "http://b/2.jpg"⟩],
          [{ entryA1 with Archived := true }, { entryB2 with Archived := true }]⟩,
        some 2) :=
  have hf1 : sampleDeps.fetch "http://a/1.png" = some ([97, 98], "image/png") := by decide
  have hf2 : sampleDeps.fetch "http://b/2.jpg" = some ([99], "image/jpeg") := by decide
  have hh : sampleDeps.HashFromBytes [97, 98] ≠ sampleDeps.HashFromBytes [99] := by decide
  ⟨hf1, hf2, hh,
    C8_end_to_end sampleDeps entryA1 entryB2 "http://a/1.png" "http://b/2.jpg" [97, 98] [99] 1
      (by decide) (by decide) (by decide) (by decide) (by decide) (by decide) rfl rfl
      (by decide) hf1 hf2 hh⟩

/-! ## `imgRegex` on tags that share a line -/

/-- C5 at a failing input: of two image tags on one line `imgRegex` yields only the
URL of the second, because `.*` runs to the last `src="` of the line, and not the
list of both URLs; the same two tags on two lines yield both URLs. -/
theorem C5_same_line_tags_lose_references :
    twoTagsOneLine = "<img src=\"http://a/1.png\">" ++ "<img src=\"http://b/2.jpg\">" ∧
    imgRegexSubmatches twoTagsOneLine = ["http://b/2.jpg"] ∧
    imgRegexSubmatches twoTagsOneLine ≠ ["http://a/1.png", "http://b/2.jpg"] ∧
    imgRegexSubmatches entryAB.Content = ["http://a/1.png", "http://b/2.jpg"] := by
  decide

end Miniflux
